import Mathlib

/-!
# Selective Repeat sender and receiver (`sr.c`)

A shallow embedding of the protocol code of `sr.c`.

* C `int` values are integers of `Int`; every value the protocol computes stays
  far from the 32-bit limits, so no wrap-around is modelled.
* C arrays are lists of the declared length.  An access whose index is outside
  the array has no defined result in C; here it ends the call with
  `Fault.outOfBounds`.
* The calls into the emulator (`tolayer3`, `tolayer5`, `starttimer`,
  `stoptimer`) are recorded, in call order, as a list of `Action`s returned by
  each handler.  The `printf` tracing is left out.
* The two `while` loops run on a fuel counter that is set to one more than the
  length of the acknowledgment table; `A_slide_fuel` and `B_slide_fuel` show
  that this is always enough.
* `B_input_beyond` follows the statements of `B_input` and goes on after an
  access outside the slots of `b_window`; what such an access does is a
  parameter (`Beyond`).  It agrees with `B_input` wherever `B_input` returns.
-/

namespace SR

/-! ## Constants -/

/-- Value of the `WINDOWSIZE` define. -/
def WINDOWSIZE : Int := 6

/-- Value of the `SEQSPACE` define, `(WINDOWSIZE * 2)`. -/
def SEQSPACE : Int := WINDOWSIZE * 2

/-- Value of the `NOTINUSE` define. -/
def NOTINUSE : Int := -1

/-- The `RTT` define is the floating constant `16.0`; it is only ever handed to
`starttimer`, and is kept here as the whole number of time units. -/
def RTT : Nat := 16

/-! ## Data -/

/-- The `struct pkt` of the emulator: three `int` fields and `char payload[20]`. -/
structure pkt where
  seqnum : Int
  acknum : Int
  checksum : Int
  payload : List Int
deriving DecidableEq, Repr

/-- The `struct msg` of the emulator: `char data[20]`. -/
structure msg where
  data : List Int
deriving DecidableEq, Repr

/-- The two entities of the emulator, `A` (sender) and `B` (receiver). -/
inductive Entity where
  | A
  | B
deriving DecidableEq, Repr

/-- A call from the protocol code into the emulator. -/
inductive Action where
  | tolayer3 (AorB : Entity) (packet : pkt)
  | tolayer5 (AorB : Entity) (datasent : List Int)
  | starttimer (AorB : Entity) (increment : Nat)
  | stoptimer (AorB : Entity)
deriving DecidableEq, Repr

/-- The ways a call can end without a result. -/
inductive Fault where
  | outOfBounds
  | outOfFuel
  | timerNotArmed
deriving DecidableEq, Repr

/-- Read `xs[i]` of a C array. -/
def rd {α : Type} (xs : List α) (i : Int) : Except Fault α :=
  if 0 ≤ i then
    match xs[i.toNat]? with
    | some x => .ok x
    | none => .error .outOfBounds
  else .error .outOfBounds

/-- Write `xs[i] = v` of a C array. -/
def wr {α : Type} (xs : List α) (i : Int) (v : α) : Except Fault (List α) :=
  if 0 ≤ i ∧ i.toNat < xs.length then .ok (xs.set i.toNat v) else .error .outOfBounds

/-- Conversion of an `int` to `bool` on assignment: every nonzero value is `true`. -/
def toBool (v : Int) : Bool := v != 0

/-! ## Checksum -/

/-- The function `ComputeChecksum`: `seqnum + acknum` plus the 20 payload bytes.
A payload is a list of 20 bytes; the default of `getD` is never read on one. -/
def ComputeChecksum (packet : pkt) : Int :=
  (List.range 20).foldl (fun checksum i => checksum + packet.payload.getD i 0)
    (packet.seqnum + packet.acknum)

/-- The function `IsCorrupted`. -/
def IsCorrupted (packet : pkt) : Bool :=
  if packet.checksum = ComputeChecksum packet then false else true

/-! ## Sender (A) -/

/-- The variables of entity A, together with the emulator counters it updates.
The arrays are declared `a_window[WINDOWSIZE]` and `a_acked[SEQSPACE]`. -/
structure Sender where
  a_window : List pkt
  a_acked : List Bool
  a_windowfirst : Int
  a_windowlast : Int
  unacked_packet_count : Int
  A_nextseqnum : Int
  window_full : Int
  total_ACKs_received : Int
  new_ACKs : Int
  packets_resent : Int
deriving DecidableEq, Repr

/-- The function `A_output`. -/
def A_output (s : Sender) (message : msg) : Except Fault (Sender × List Action) :=
  if s.unacked_packet_count < WINDOWSIZE then do
    -- create packet (the checksum does not read the checksum field)
    let fields : pkt :=
      { seqnum := s.A_nextseqnum, acknum := NOTINUSE, checksum := 0,
        payload := (List.range 20).map (fun i => message.data.getD i 0) }
    let sendpkt : pkt := { fields with checksum := ComputeChecksum fields }
    -- put packet in window buffer
    let windowlast := (s.a_windowlast + 1).tmod WINDOWSIZE
    let window ← wr s.a_window windowlast sendpkt
    let count := s.unacked_packet_count + 1
    let acked ← wr s.a_acked s.A_nextseqnum false
    -- send out packet, start timer if first packet in window
    let timer := if count = 1 then [Action.starttimer .A RTT] else []
    pure ({ s with
            a_window := window, a_windowlast := windowlast,
            unacked_packet_count := count, a_acked := acked,
            A_nextseqnum := (s.A_nextseqnum + 1).tmod SEQSPACE },
          Action.tolayer3 .A sendpkt :: timer)
  else
    pure ({ s with window_full := s.window_full + 1 }, [])

/-- The range test of `A_input` on `seqfirst`, `seqlast` and the `acknum`. -/
def A_inrange (seqfirst seqlast acknum : Int) : Bool :=
  ((seqfirst ≤ seqlast) && (acknum ≥ seqfirst && acknum ≤ seqlast)) ||
  ((seqfirst > seqlast) && (acknum ≥ seqfirst || acknum ≤ seqlast))

/-- The `while` loop of `A_input`, with the flag `window_slid`. -/
def A_slide : Nat → Sender → Bool → Except Fault (Sender × Bool)
  | 0, _, _ => .error .outOfFuel
  | fuel + 1, s, window_slid => do
    let first ← rd s.a_window s.a_windowfirst
    let c ← rd s.a_acked first.seqnum
    if c then
      let acked ← wr s.a_acked first.seqnum false
      A_slide fuel
        { s with a_acked := acked,
                 a_windowfirst := (s.a_windowfirst + 1).tmod WINDOWSIZE } true
    else
      pure (s, window_slid)

/-- The function `A_input`. -/
def A_input (s : Sender) (packet : pkt) : Except Fault (Sender × List Action) :=
  if !IsCorrupted packet then
    let s1 : Sender := { s with total_ACKs_received := s.total_ACKs_received + 1 }
    if s1.unacked_packet_count ≠ (0 : Int) then do
      let first ← rd s1.a_window s1.a_windowfirst
      let last ← rd s1.a_window s1.a_windowlast
      if A_inrange first.seqnum last.seqnum packet.acknum then
        let s2 : Sender := { s1 with new_ACKs := s1.new_ACKs + 1 }
        let ackseq := packet.acknum
        let c ← rd s2.a_acked ackseq
        let s3 ←
          if !c then do
            let acked ← wr s2.a_acked ackseq true
            pure { s2 with a_acked := acked,
                           unacked_packet_count := s2.unacked_packet_count - 1 }
          else pure s2
        let (s4, window_slid) ← A_slide (s3.a_acked.length + 1) s3 false
        let timer :=
          if window_slid then
            Action.stoptimer .A ::
              (if s4.unacked_packet_count > 0 then [Action.starttimer .A RTT] else [])
          else []
        pure (s4, timer)
      else pure (s1, [])
    else pure (s1, [])
  else pure (s, [])

/-- The function `A_timerinterrupt`. -/
def A_timerinterrupt (s : Sender) : Except Fault (Sender × List Action) := do
  let _seq ← rd s.a_window (s.a_windowfirst.tmod WINDOWSIZE)
  let resent ← rd s.a_window (s.a_windowfirst.tmod WINDOWSIZE)
  pure ({ s with packets_resent := s.packets_resent + 1 },
        [Action.tolayer3 .A resent, Action.starttimer .A RTT])

/-- The variables of entity A before `A_init` runs: C zero-initialises objects
of static storage duration. -/
def A_static : Sender :=
  { a_window := List.replicate 6 ⟨0, 0, 0, List.replicate 20 0⟩,
    a_acked := List.replicate 12 false,
    a_windowfirst := 0, a_windowlast := 0, unacked_packet_count := 0,
    A_nextseqnum := 0, window_full := 0, total_ACKs_received := 0,
    new_ACKs := 0, packets_resent := 0 }

/-- The function `A_init`; its loop stores the `int` 3 into each `bool` of
`a_acked`. -/
def A_init (s : Sender) : Sender :=
  { s with
    A_nextseqnum := 0, a_windowfirst := 0, a_windowlast := -1,
    unacked_packet_count := 0,
    a_acked := (List.range SEQSPACE.toNat).foldl (fun acked i => acked.set i (toBool 3))
                 s.a_acked }

/-! ## Sender and its timer -/

/-- The effect of the timer calls in a list of actions on the armed flag:
`starttimer` arms, `stoptimer` disarms. -/
def timerAfter (armed : Bool) : List Action → Bool
  | [] => armed
  | Action.starttimer _ _ :: rest => timerAfter true rest
  | Action.stoptimer _ :: rest => timerAfter false rest
  | _ :: rest => timerAfter armed rest

/-- The sender together with the armed flag of its timer. -/
structure ASys where
  st : Sender
  timer : Bool
deriving DecidableEq, Repr

/-- The events the emulator delivers to entity A. -/
inductive AEvent where
  | output (message : msg)
  | input (packet : pkt)
  | timerinterrupt
deriving DecidableEq, Repr

/-- One event at the sender.  A timer interrupt only occurs while the timer is
armed, and the firing disarms the timer before the handler runs. -/
def A_step (w : ASys) : AEvent → Except Fault ASys
  | .output message => do
    let (s, acts) ← A_output w.st message
    pure ⟨s, timerAfter w.timer acts⟩
  | .input packet => do
    let (s, acts) ← A_input w.st packet
    pure ⟨s, timerAfter w.timer acts⟩
  | .timerinterrupt =>
    if w.timer then do
      let (s, acts) ← A_timerinterrupt w.st
      pure ⟨s, timerAfter false acts⟩
    else .error .timerNotArmed

/-- A finite sequence of events at the sender. -/
def A_run (w : ASys) : List AEvent → Except Fault ASys
  | [] => pure w
  | e :: es => do
    let w1 ← A_step w e
    A_run w1 es

/-- The sender right after `A_init`, timer not armed. -/
def A_start : ASys := ⟨A_init A_static, false⟩

/-- States the sender can be in after `A_init` and a finite sequence of events. -/
def A_reachable (w : ASys) : Prop := ∃ es, A_run A_start es = .ok w

/-! ## Receiver (B) -/

/-- The variables of entity B, together with the emulator counter it updates.
The arrays are declared `b_window[WINDOWSIZE]` and `b_acked[SEQSPACE]`. -/
structure Receiver where
  b_windowbase : Int
  B_nextseqnum : Int
  b_window : List pkt
  b_acked : List Bool
  packets_received : Int
deriving DecidableEq, Repr

/-- The window test of `B_input` on `b_windowbase` and `sequencenum`. -/
def B_inwindow (b_windowbase sequencenum : Int) : Bool :=
  let upper_bound := (b_windowbase + WINDOWSIZE).tmod SEQSPACE
  if b_windowbase < upper_bound then
    if sequencenum ≥ b_windowbase ∧ sequencenum < upper_bound then true else false
  else
    if sequencenum ≥ b_windowbase ∨ sequencenum < upper_bound then true else false

/-- The `while` loop of `B_input`; the payloads handed to `tolayer5` are
collected in call order. -/
def B_slide : Nat → Receiver → Except Fault (Receiver × List Action)
  | 0, _ => .error .outOfFuel
  | fuel + 1, s => do
    let c ← rd s.b_acked s.b_windowbase
    if c then
      let buffered ← rd s.b_window s.b_windowbase
      let acked ← wr s.b_acked s.b_windowbase false
      let (s1, acts) ← B_slide fuel
        { s with b_acked := acked,
                 b_windowbase := (s.b_windowbase + 1).tmod SEQSPACE }
      pure (s1, Action.tolayer5 .B buffered.payload :: acts)
    else
      pure (s, [])

/-- The statement `if (inwindow && !b_acked[sequencenum]) { ... }` of `B_input`:
mark the sequence number as received and store the packet at
`b_window[sequencenum]`.  The `&&` reads `b_acked` only when `inwindow` holds. -/
def B_buffer (s : Receiver) (packet : pkt) : Except Fault Receiver :=
  if B_inwindow s.b_windowbase packet.seqnum then do
    let c ← rd s.b_acked packet.seqnum
    if !c then do
      let acked ← wr s.b_acked packet.seqnum true
      let window ← wr s.b_window packet.seqnum packet
      pure { s with b_acked := acked, b_window := window }
    else pure s
  else pure s

/-- The end of `B_input`, after the `if`/`else` on corruption: set the sequence
number of `sendpkt`, flip `B_nextseqnum`, compute the checksum and call
`tolayer3`.  The actions `delivered` are the `tolayer5` calls made before. -/
def B_send (s : Receiver) (sendpkt : pkt) (delivered : List Action) :
    Receiver × List Action :=
  let numbered : pkt := { sendpkt with seqnum := s.B_nextseqnum }
  let s1 : Receiver := { s with B_nextseqnum := (s.B_nextseqnum + 1).tmod 2 }
  let summed : pkt := { numbered with checksum := ComputeChecksum numbered }
  (s1, delivered ++ [Action.tolayer3 .B summed])

/-- The function `B_input`.  The local `sendpkt` is not initialised by the C
code; its initial contents are the third argument. -/
def B_input (s : Receiver) (packet : pkt) (sendpkt : pkt) :
    Except Fault (Receiver × List Action) :=
  let sequencenum := packet.seqnum
  if !IsCorrupted packet then do
    let s1 : Receiver := { s with packets_received := s.packets_received + 1 }
    -- if its in the window and its new then buffer
    let s2 ← B_buffer s1 packet
    -- send ack to sender even if its not in order
    let sendpkt1 : pkt :=
      { sendpkt with acknum := sequencenum, seqnum := s2.B_nextseqnum }
    let s3 : Receiver := { s2 with B_nextseqnum := (s2.B_nextseqnum + 1).tmod 2 }
    let sendpkt2 : pkt := { sendpkt1 with payload := (List.range 20).map (fun _ => 48) }
    -- slide window to next non-received packet
    let r ← B_slide (s3.b_acked.length + 1) s3
    pure (B_send r.1 sendpkt2 r.2)
  else
    pure (B_send s sendpkt [])

/-- The variables of entity B before `B_init` runs (zero-initialised statics). -/
def B_static : Receiver :=
  { b_windowbase := 0, B_nextseqnum := 0,
    b_window := List.replicate 6 ⟨0, 0, 0, List.replicate 20 0⟩,
    b_acked := List.replicate 12 false,
    packets_received := 0 }

/-- The function `B_init`. -/
def B_init (s : Receiver) : Receiver :=
  { s with
    B_nextseqnum := 1, b_windowbase := 0,
    b_acked := (List.range SEQSPACE.toNat).foldl (fun acked i => acked.set i false)
                 s.b_acked }

/-- The receiver right after `B_init`. -/
def B_start : Receiver := B_init B_static

/-- A finite sequence of `B_input` calls; each arrival comes with the initial
contents of the local `sendpkt` of that call.  The actions of all calls are
collected in order. -/
def B_run (s : Receiver) : List (pkt × pkt) → Except Fault (Receiver × List Action)
  | [] => pure (s, [])
  | (packet, sendpkt) :: rest => do
    let (s1, acts1) ← B_input s packet sendpkt
    let (s2, acts2) ← B_run s1 rest
    pure (s2, acts1 ++ acts2)

/-- States the receiver can be in after `B_init` and a finite sequence of
`B_input` calls. -/
def B_reachable (s : Receiver) : Prop := ∃ arrivals acts, B_run B_start arrivals = .ok (s, acts)

/-! ## Invariants of the reachable states -/

/-- What holds of the sender variables in every state reachable from `A_init`:
the arrays have their declared lengths, the indices and sequence numbers are in
range, and once a packet has been sent the sequence number stored at
`a_window[a_windowfirst]` is not marked in `a_acked`. -/
structure A_inv (s : Sender) : Prop where
  window_len : s.a_window.length = 6
  acked_len : s.a_acked.length = 12
  first_lo : 0 ≤ s.a_windowfirst
  first_hi : s.a_windowfirst < 6
  last_lo : -1 ≤ s.a_windowlast
  last_hi : s.a_windowlast < 6
  fresh : s.a_windowlast = -1 → s.unacked_packet_count = 0 ∧ s.a_windowfirst = 0
  count_lo : 0 ≤ s.unacked_packet_count
  count_hi : s.unacked_packet_count ≤ 6
  next_lo : 0 ≤ s.A_nextseqnum
  next_hi : s.A_nextseqnum < 12
  seq_ok : ∀ p ∈ s.a_window, 0 ≤ p.seqnum ∧ p.seqnum < 12
  oldest : s.a_windowlast = -1 ∨
    ∃ p, rd s.a_window s.a_windowfirst = .ok p ∧ rd s.a_acked p.seqnum = .ok false

/-- What holds of the receiver variables in every state reachable from `B_init`
through calls that stay inside the arrays: no sequence number from `WINDOWSIZE`
on is ever marked, `b_windowbase` never passes `WINDOWSIZE`, and the entry of
`b_acked` at `b_windowbase` is clear. -/
structure B_inv (s : Receiver) : Prop where
  window_len : s.b_window.length = 6
  acked_len : s.b_acked.length = 12
  base_lo : 0 ≤ s.b_windowbase
  base_hi : s.b_windowbase ≤ 6
  base_clear : rd s.b_acked s.b_windowbase = .ok false
  high_clear : ∀ i : Int, 6 ≤ i → rd s.b_acked i ≠ .ok true
  alt : s.B_nextseqnum = 0 ∨ s.B_nextseqnum = 1

/-! ## Observations and sample data -/

/-- The payloads handed to `tolayer5`, in call order. -/
def delivered : List Action → List (List Int)
  | [] => []
  | Action.tolayer5 _ datasent :: rest => datasent :: delivered rest
  | _ :: rest => delivered rest

/-- A message whose 20 bytes all are `c`. -/
def exMsg (c : Int) : msg := ⟨List.replicate 20 c⟩

/-- The data packet `A_output` builds for sequence number `k` from `exMsg c`. -/
def exData (k c : Int) : pkt := ⟨k, -1, k - 1 + 20 * c, List.replicate 20 c⟩

/-- An uncorrupted acknowledgment of sequence number `k`, as `B_input` builds it. -/
def exAck (k : Int) : pkt := ⟨0, k, k + 960, List.replicate 20 48⟩

/-- Some initial contents for the local `sendpkt` of `B_input`. -/
def exJunk : pkt := ⟨7, 7, 7, List.replicate 20 7⟩

/-- Six messages accepted in a row: sequence numbers 0 to 5 fill the window. -/
def exFill : List AEvent :=
  [.output (exMsg 0), .output (exMsg 1), .output (exMsg 2), .output (exMsg 3),
   .output (exMsg 4), .output (exMsg 5)]

/-- The sender after the events `es`, when they all return. -/
def A_after (es : List AEvent) : ASys :=
  match A_run A_start es with
  | .ok w => w
  | .error _ => A_start

/-- The receiver and the collected actions after `arrivals`, when all calls return. -/
def B_after (arrivals : List (pkt × pkt)) : Receiver × List Action :=
  match B_run B_start arrivals with
  | .ok r => r
  | .error _ => (B_start, [])

/-- The first six data packets arriving in order. -/
def exInOrder : List (pkt × pkt) :=
  [(exData 0 65, exJunk), (exData 1 66, exJunk), (exData 2 67, exJunk),
   (exData 3 68, exJunk), (exData 4 69, exJunk), (exData 5 70, exJunk)]

/-- The window is filled, packet 1 is acknowledged, and a seventh message is
accepted. -/
def exOverwrite : List AEvent := exFill ++ [.input (exAck 1), .output (exMsg 6)]

/-- The window is filled, packets 1 and 2 are acknowledged, two more messages
are accepted, then acknowledgments 6, 7, 3, 4, 5 and once more 7 arrive. -/
def exTimerLeft : List AEvent :=
  exFill ++ [.input (exAck 1), .input (exAck 2), .output (exMsg 6), .output (exMsg 7),
    .input (exAck 6), .input (exAck 7), .input (exAck 3), .input (exAck 4),
    .input (exAck 5), .input (exAck 7)]

/-- The packets handed to `tolayer3`, in call order. -/
def sent : List Action → List pkt
  | [] => []
  | Action.tolayer3 _ packet :: rest => packet :: sent rest
  | _ :: rest => sent rest

/-- Whether some `starttimer` of the list is called while the timer is armed,
`armed` being the flag before the first action. -/
def startsArmed (armed : Bool) : List Action → Bool
  | [] => false
  | Action.starttimer _ _ :: rest => armed || startsArmed true rest
  | Action.stoptimer _ :: rest => startsArmed false rest
  | _ :: rest => startsArmed armed rest

/-- The shape of the sender variables: the arrays have their declared lengths,
`a_windowfirst` is an index of `a_window`, and `a_windowlast` is an index of
`a_window` or the -1 that `A_init` stores. -/
def A_shape (s : Sender) : Prop :=
  s.a_window.length = 6 ∧ s.a_acked.length = 12 ∧
  0 ≤ s.a_windowfirst ∧ s.a_windowfirst < WINDOWSIZE ∧
  -1 ≤ s.a_windowlast ∧ s.a_windowlast < WINDOWSIZE

instance (s : Sender) : Decidable (A_shape s) := by
  unfold A_shape
  exact inferInstance

/-- Thirteen messages are accepted, each acknowledgment arriving in order, so
that the sequence numbers wrap: the window then holds packets 7 to 11 and 0. -/
def exWrap : List AEvent :=
  exFill ++ [.input (exAck 0), .output (exMsg 6), .input (exAck 1), .output (exMsg 7),
    .input (exAck 2), .output (exMsg 8), .input (exAck 3), .output (exMsg 9),
    .input (exAck 4), .output (exMsg 10), .input (exAck 5), .output (exMsg 11),
    .input (exAck 6), .output (exMsg 12)]

/-- Packets 0, 1 and 2 arriving in order at the receiver. -/
def exThree : List (pkt × pkt) :=
  [(exData 0 65, exJunk), (exData 1 66, exJunk), (exData 2 67, exJunk)]

/-! ## The buffering statement of the receiver, in two steps -/

/-- The test `inwindow && !b_acked[sequencenum]` of `B_input` and the first
statement of the body it guards, `b_acked[sequencenum] = true`.  The result is
the receiver after that statement together with `true` when the body is
entered, and the unchanged receiver together with `false` when it is not. -/
def B_mark (s : Receiver) (packet : pkt) : Except Fault (Receiver × Bool) :=
  if B_inwindow s.b_windowbase packet.seqnum then do
    let c ← rd s.b_acked packet.seqnum
    if !c then do
      let acked ← wr s.b_acked packet.seqnum true
      pure ({ s with b_acked := acked }, true)
    else pure (s, false)
  else pure (s, false)

/-- The second statement of that body, `b_window[sequencenum] = packet`. -/
def B_store (s : Receiver) (packet : pkt) : Except Fault Receiver := do
  let window ← wr s.b_window packet.seqnum packet
  pure { s with b_window := window }

/-! ## The receiver when `b_window` is indexed outside its slots

`b_window` has `WINDOWSIZE` slots and `B_input` indexes it with a sequence
number.  `B_input` above has no result when the index is not a slot.  The
definitions below follow the same statements, and go on after such an access:
what a store outside the slots does to the variables of the receiver, and what
a read outside the slots yields, depends on where the variables lie in memory,
which the source does not fix; both are parameters. -/

/-- The memory around `b_window`.  For an index `i` that is not a slot,
`stored s i packet` are the variables of the receiver after
`b_window[i] = packet` in state `s`, and `slot s i` is the value read at
`b_window[i]`.  The parameter and the locals of the running call are taken to
lie out of reach of the store. -/
structure Beyond where
  stored : Receiver → Int → pkt → Receiver
  slot : Receiver → Int → pkt

/-- The shape of the receiver variables: the arrays have their declared
lengths and `b_windowbase` is a sequence number. -/
def B_shape (s : Receiver) : Prop :=
  s.b_window.length = 6 ∧ s.b_acked.length = 12 ∧
  0 ≤ s.b_windowbase ∧ s.b_windowbase < SEQSPACE

instance (s : Receiver) : Decidable (B_shape s) := by
  unfold B_shape
  exact inferInstance

/-- The read `b_window[i]`, for any index. -/
def B_window_get (m : Beyond) (s : Receiver) (i : Int) : pkt :=
  match rd s.b_window i with
  | .ok buffered => buffered
  | .error _ => m.slot s i

/-- The store `b_window[i] = packet`, for any index. -/
def B_window_put (m : Beyond) (s : Receiver) (i : Int) (packet : pkt) : Receiver :=
  match wr s.b_window i packet with
  | .ok window => { s with b_window := window }
  | .error _ => m.stored s i packet

/-- The `while` loop of `B_input`, going on after a read outside the slots of
`b_window`. -/
def B_slide_beyond (m : Beyond) : Nat → Receiver → Except Fault (Receiver × List Action)
  | 0, _ => .error .outOfFuel
  | fuel + 1, s => do
    let c ← rd s.b_acked s.b_windowbase
    if c then
      let buffered := B_window_get m s s.b_windowbase
      let acked ← wr s.b_acked s.b_windowbase false
      let (s1, acts) ← B_slide_beyond m fuel
        { s with b_acked := acked,
                 b_windowbase := (s.b_windowbase + 1).tmod SEQSPACE }
      pure (s1, Action.tolayer5 .B buffered.payload :: acts)
    else
      pure (s, [])

/-- The statement `if (inwindow && !b_acked[sequencenum]) { ... }` of `B_input`,
going on after a store outside the slots of `b_window`. -/
def B_buffer_beyond (m : Beyond) (s : Receiver) (packet : pkt) : Except Fault Receiver :=
  if B_inwindow s.b_windowbase packet.seqnum then do
    let c ← rd s.b_acked packet.seqnum
    if !c then do
      let acked ← wr s.b_acked packet.seqnum true
      pure (B_window_put m { s with b_acked := acked } packet.seqnum packet)
    else pure s
  else pure s

/-- The function `B_input`, going on after an access outside the slots of
`b_window`.  Accesses outside `b_acked` still end the call. -/
def B_input_beyond (m : Beyond) (s : Receiver) (packet : pkt) (sendpkt : pkt) :
    Except Fault (Receiver × List Action) :=
  let sequencenum := packet.seqnum
  if !IsCorrupted packet then do
    let s1 : Receiver := { s with packets_received := s.packets_received + 1 }
    let s2 ← B_buffer_beyond m s1 packet
    let sendpkt1 : pkt :=
      { sendpkt with acknum := sequencenum, seqnum := s2.B_nextseqnum }
    let s3 : Receiver := { s2 with B_nextseqnum := (s2.B_nextseqnum + 1).tmod 2 }
    let sendpkt2 : pkt := { sendpkt1 with payload := (List.range 20).map (fun _ => 48) }
    let r ← B_slide_beyond m (s3.b_acked.length + 1) s3
    pure (B_send r.1 sendpkt2 r.2)
  else
    pure (B_send s sendpkt [])

/-- Byte `k` of a C `int` in memory: 32 bits, two's complement, low byte first. -/
def byteOf (v : Int) (k : Nat) : Int := v % 4294967296 / 256 ^ k % 256

/-- A sample memory: `b_acked` lies right behind `b_window`, as the two are
declared, so that `b_window[6]` begins where `b_acked` begins.  A store at
`b_window[6]` then puts the twelve bytes of `seqnum`, `acknum` and `checksum`
over the twelve entries of `b_acked`, an entry being set when its byte is not
zero; stores at higher indices fall behind `b_acked` and leave the variables of
the receiver as they are.  A read outside the slots yields `exJunk`. -/
def exOverlay : Beyond :=
  { stored := fun s i q =>
      let header := [q.seqnum, q.acknum, q.checksum]
      let bytes := (List.range 12).map (fun n => toBool (byteOf (header.getD (n / 4) 0) (n % 4)))
      if i = 6 then { s with b_acked := bytes } else s,
    slot := fun _ _ => exJunk }

/-- Packets 0 to 3 arriving in order at the receiver. -/
def exFour : List (pkt × pkt) :=
  [(exData 0 65, exJunk), (exData 1 66, exJunk), (exData 2 67, exJunk), (exData 3 68, exJunk)]

/-- An uncorrupted packet with sequence number 6 whose `acknum` field is 1. -/
def exOdd : pkt := ⟨6, 1, 1427, List.replicate 20 71⟩

/-- Packets 0 and 1 arriving in order at the receiver. -/
def exTwo : List (pkt × pkt) :=
  [(exData 0 65, exJunk), (exData 1 66, exJunk)]

/-! ## Array accesses and the result monad -/

theorem bind_ok {ε α β : Type} {x : Except ε α} {f : α → Except ε β} {b : β} :
    (x >>= f) = .ok b ↔ ∃ a, x = .ok a ∧ f a = .ok b := by
  cases x <;> simp [bind, Except.bind]

theorem pure_ok {ε α : Type} {a b : α} : (pure a : Except ε α) = .ok b ↔ a = b := by
  simp [pure, Except.pure]

theorem rd_ok {α : Type} {xs : List α} {i : Int} {x : α} :
    rd xs i = .ok x ↔ 0 ≤ i ∧ xs[i.toNat]? = some x := by
  unfold rd
  by_cases h : 0 ≤ i
  · simp only [h, if_true, true_and]
    cases hx : xs[i.toNat]? <;> simp
  · simp [h]

theorem rd_bounds {α : Type} {l : List α} {i : Int} (h0 : 0 ≤ i) (h1 : i < l.length) :
    ∃ x, rd l i = .ok x := by
  have hlt : i.toNat < l.length := by omega
  exact ⟨l[i.toNat], rd_ok.2 ⟨h0, List.getElem?_eq_getElem hlt⟩⟩

theorem rd_lt {α : Type} {xs : List α} {i : Int} {x : α} (h : rd xs i = .ok x) :
    0 ≤ i ∧ i < xs.length := by
  obtain ⟨h0, h1⟩ := rd_ok.1 h
  have := (List.getElem?_eq_some_iff.1 h1).1
  omega

theorem rd_mem {α : Type} {xs : List α} {i : Int} {x : α} (h : rd xs i = .ok x) : x ∈ xs :=
  List.mem_iff_getElem?.2 ⟨_, (rd_ok.1 h).2⟩

theorem wr_ok {α : Type} {xs ys : List α} {i : Int} {v : α} :
    wr xs i v = .ok ys ↔ (0 ≤ i ∧ i < xs.length) ∧ ys = xs.set i.toNat v := by
  unfold wr
  by_cases h : 0 ≤ i ∧ i.toNat < xs.length
  · have : 0 ≤ i ∧ i < xs.length := ⟨h.1, by omega⟩
    simp only [h, this, and_self, if_true, true_and, Except.ok.injEq]
    exact eq_comm
  · have : ¬ (0 ≤ i ∧ i < (xs.length : Int)) := fun h2 => h ⟨h2.1, by omega⟩
    simp [h, this]

theorem rd_set_same {α : Type} {xs : List α} {i : Int} {v : α} (h0 : 0 ≤ i)
    (h1 : i < xs.length) : rd (xs.set i.toNat v) i = .ok v := by
  refine rd_ok.2 ⟨h0, ?_⟩
  rw [List.getElem?_set_self]
  omega

theorem rd_set_ne {α : Type} {xs : List α} {i j : Int} {v : α} (h0 : 0 ≤ i) (hj : 0 ≤ j)
    (hne : i ≠ j) : rd (xs.set i.toNat v) j = rd xs j := by
  unfold rd
  have : i.toNat ≠ j.toNat := by omega
  simp only [hj, if_true, List.getElem?_set_ne this]

theorem WINDOWSIZE_eq : WINDOWSIZE = 6 := rfl

theorem SEQSPACE_eq : SEQSPACE = 12 := rfl

theorem tmod_range {x n : Int} (hx : 0 ≤ x) (hn : 0 < n) : 0 ≤ x.tmod n ∧ x.tmod n < n := by
  rw [Int.tmod_eq_emod hx (le_of_lt hn)]
  exact ⟨Int.emod_nonneg _ (ne_of_gt hn), Int.emod_lt_of_pos _ hn⟩

theorem A_slide_spec (fuel : Nat) : ∀ (s : Sender) (b : Bool) (r : Sender × Bool),
    s.a_window.length = 6 → s.a_acked.length = 12 → 0 ≤ s.a_windowfirst →
    A_slide fuel s b = .ok r →
    ∃ acked first, r.1 = { s with a_acked := acked, a_windowfirst := first } ∧
      acked.length = 12 ∧ 0 ≤ first ∧ first < 6 ∧
      (∃ p, rd s.a_window first = .ok p ∧ rd acked p.seqnum = .ok false) ∧
      (r.2 = false → b = false ∧ r.1 = s) := by
  induction fuel with
  | zero => intro s b r _ _ _ h; simp [A_slide] at h
  | succ n ih =>
    intro s b r hwin hlen hf h
    simp only [A_slide, bind_ok] at h
    obtain ⟨p, hp, c, hc, h⟩ := h
    cases c with
    | true =>
      simp only [if_true, bind_ok] at h
      obtain ⟨acked, hw, h⟩ := h
      have hlen2 : acked.length = 12 := by
        rw [(wr_ok.1 hw).2, List.length_set]; exact hlen
      have hfr := tmod_range (x := s.a_windowfirst + 1) (n := WINDOWSIZE) (by omega) (by decide)
      obtain ⟨acked2, first2, hr, hl, h0, h1, hp2, hb⟩ := ih { s with a_acked := acked, a_windowfirst := (s.a_windowfirst + 1).tmod WINDOWSIZE } true r
        hwin hlen2 hfr.1 h
      refine ⟨acked2, first2, ?_, hl, h0, h1, hp2, ?_⟩
      · rw [hr]
      · intro hr2
        exact absurd (hb hr2).1 (by decide)
    | false =>
      simp only [Bool.false_eq_true, if_false, pure_ok] at h
      subst h
      have hlt := (rd_lt hp).2
      rw [hwin] at hlt
      exact ⟨s.a_acked, s.a_windowfirst, rfl, hlen, hf, by exact_mod_cast hlt, ⟨p, hp, hc⟩,
        fun hb => ⟨hb, rfl⟩⟩

theorem A_output_inv {s s1 : Sender} {message : msg} {acts : List Action} (hi : A_inv s)
    (h : A_output s message = .ok (s1, acts)) : A_inv s1 := by
  unfold A_output at h
  simp only [WINDOWSIZE_eq, SEQSPACE_eq] at h
  split at h
  · rename_i hlt
    simp only [bind_ok, pure_ok, Prod.mk.injEq] at h
    obtain ⟨window, hw, acked, ha, hs, -⟩ := h
    obtain ⟨hwb, hweq⟩ := wr_ok.1 hw
    obtain ⟨hab, haeq⟩ := wr_ok.1 ha
    have hl := tmod_range (x := s.a_windowlast + 1) (n := 6)
      (by have := hi.last_lo; omega) (by decide)
    have hn := tmod_range (x := s.A_nextseqnum + 1) (n := 12)
      (by have := hi.next_lo; omega) (by decide)
    subst hs
    refine ⟨?_, ?_, hi.first_lo, hi.first_hi, ?_, hl.2, ?_, ?_, ?_, hn.1, hn.2, ?_, ?_⟩
    · rw [hweq, List.length_set]; exact hi.window_len
    · rw [haeq, List.length_set]; exact hi.acked_len
    · show (-1 : Int) ≤ (s.a_windowlast + 1).tmod 6
      omega
    · intro hneg
      exfalso
      have : (s.a_windowlast + 1).tmod 6 = -1 := hneg
      omega
    · show 0 ≤ s.unacked_packet_count + 1
      have := hi.count_lo; omega
    · show s.unacked_packet_count + 1 ≤ 6
      omega
    · intro p hp
      change p ∈ window at hp
      rw [hweq] at hp
      rcases List.mem_or_eq_of_mem_set hp with hp | hp
      · exact hi.seq_ok p hp
      · subst hp; exact ⟨hi.next_lo, hi.next_hi⟩
    · right
      show ∃ p, rd window s.a_windowfirst = .ok p ∧ rd acked p.seqnum = .ok false
      by_cases hsame : (s.a_windowlast + 1).tmod 6 = s.a_windowfirst
      · have h1 := rd_set_same (v := false) hab.1 hab.2
        rw [← haeq] at h1
        rw [hweq, ← hsame]
        exact ⟨_, rd_set_same hwb.1 hwb.2, h1⟩
      · have hlast : s.a_windowlast ≠ -1 := by
          intro hneg
          apply hsame
          rw [(hi.fresh hneg).2, hneg]; decide
        rcases hi.oldest with ho | ⟨p, hp, hpa⟩
        · exact absurd ho hlast
        · refine ⟨p, ?_, ?_⟩
          · rw [hweq, rd_set_ne hwb.1 hi.first_lo hsame]; exact hp
          · rw [haeq]
            by_cases hseq : s.A_nextseqnum = p.seqnum
            · rw [← hseq]; exact rd_set_same hab.1 hab.2
            · rw [rd_set_ne hab.1 (hi.seq_ok p (rd_mem hp)).1 hseq]; exact hpa
  · simp only [pure_ok, Prod.mk.injEq] at h
    obtain ⟨hs, -⟩ := h
    subst hs
    exact ⟨hi.window_len, hi.acked_len, hi.first_lo, hi.first_hi, hi.last_lo, hi.last_hi,
      hi.fresh, hi.count_lo, hi.count_hi, hi.next_lo, hi.next_hi, hi.seq_ok, hi.oldest⟩

theorem A_inv_of_eq {s t : Sender} (hi : A_inv s) (hw : t.a_window = s.a_window)
    (ha : t.a_acked = s.a_acked) (hf : t.a_windowfirst = s.a_windowfirst)
    (hl : t.a_windowlast = s.a_windowlast)
    (hc : t.unacked_packet_count = s.unacked_packet_count)
    (hn : t.A_nextseqnum = s.A_nextseqnum) : A_inv t := by
  obtain ⟨h1, h2, h3, h4, h5, h6, h7, h8, h9, h10, h11, h12, h13⟩ := hi
  rw [← hw, ← ha, ← hf, ← hl, ← hc, ← hn] at *
  exact ⟨h1, h2, h3, h4, h5, h6, h7, h8, h9, h10, h11, h12, h13⟩

theorem A_slide_inv {fuel : Nat} {s : Sender} {b : Bool} {r : Sender × Bool}
    (h : A_slide fuel s b = .ok r) (hwin : s.a_window.length = 6) (hlen : s.a_acked.length = 12)
    (hf : 0 ≤ s.a_windowfirst) (hl0 : 0 ≤ s.a_windowlast) (hl1 : s.a_windowlast < 6)
    (hc0 : 0 ≤ s.unacked_packet_count) (hc1 : s.unacked_packet_count ≤ 6)
    (hn0 : 0 ≤ s.A_nextseqnum) (hn1 : s.A_nextseqnum < 12)
    (hseq : ∀ p ∈ s.a_window, 0 ≤ p.seqnum ∧ p.seqnum < 12) : A_inv r.1 := by
  obtain ⟨acked, first, hr, hlen2, h0, h1, hp, -⟩ := A_slide_spec fuel s b r hwin hlen hf h
  rw [hr]
  exact ⟨hwin, hlen2, h0, h1, by show (-1 : Int) ≤ s.a_windowlast; omega, hl1,
    fun hneg => absurd (show s.a_windowlast = -1 from hneg) (by omega), hc0, hc1, hn0, hn1,
    hseq, Or.inr hp⟩

theorem A_input_inv {s s1 : Sender} {packet : pkt} {acts : List Action} (hi : A_inv s)
    (h : A_input s packet = .ok (s1, acts)) : A_inv s1 := by
  unfold A_input at h
  split at h
  · simp only at h
    split at h
    · rename_i hcount
      have hl0 : 0 ≤ s.a_windowlast := by
        have h1 := hi.last_lo
        have h2 := hi.fresh
        by_contra hneg
        exact hcount (h2 (by omega)).1
      simp only [bind_ok] at h
      obtain ⟨first, hfirst, last, hlast, h⟩ := h
      split at h
      · simp only [bind_ok] at h
        obtain ⟨c, hc, h⟩ := h
        cases c with
        | false =>
          simp only [Bool.not_false, if_true, bind_ok, pure_ok, Prod.mk.injEq] at h
          obtain ⟨acked, hw, s3, hs3, r, hslide, hr, -⟩ := h
          subst hs3 hr
          refine A_slide_inv hslide hi.window_len ?_ hi.first_lo hl0 hi.last_hi ?_ ?_
            hi.next_lo hi.next_hi hi.seq_ok
          · show acked.length = 12
            rw [(wr_ok.1 hw).2, List.length_set]; exact hi.acked_len
          · show 0 ≤ s.unacked_packet_count - 1
            have := hi.count_lo; omega
          · show s.unacked_packet_count - 1 ≤ 6
            have := hi.count_hi; omega
        | true =>
          simp only [Bool.not_true, Bool.false_eq_true, if_false, bind_ok, pure_ok,
            Prod.mk.injEq] at h
          obtain ⟨s3, hs3, r, hslide, hr, -⟩ := h
          subst hs3 hr
          exact A_slide_inv hslide hi.window_len hi.acked_len hi.first_lo hl0 hi.last_hi
            hi.count_lo hi.count_hi hi.next_lo hi.next_hi hi.seq_ok
      · simp only [pure_ok, Prod.mk.injEq] at h
        rw [← h.1]
        exact A_inv_of_eq hi rfl rfl rfl rfl rfl rfl
    · simp only [pure_ok, Prod.mk.injEq] at h
      rw [← h.1]
      exact A_inv_of_eq hi rfl rfl rfl rfl rfl rfl
  · simp only [pure_ok, Prod.mk.injEq] at h
    rw [← h.1]
    exact hi

theorem A_timerinterrupt_inv {s s1 : Sender} {acts : List Action} (hi : A_inv s)
    (h : A_timerinterrupt s = .ok (s1, acts)) : A_inv s1 := by
  unfold A_timerinterrupt at h
  simp only [bind_ok, pure_ok, Prod.mk.injEq] at h
  obtain ⟨_, _, _, _, hs, -⟩ := h
  rw [← hs]
  exact A_inv_of_eq hi rfl rfl rfl rfl rfl rfl

theorem A_step_inv {w w1 : ASys} {e : AEvent} (hi : A_inv w.st) (h : A_step w e = .ok w1) :
    A_inv w1.st := by
  cases e with
  | output message =>
    simp only [A_step, bind_ok, pure_ok] at h
    obtain ⟨⟨s, acts⟩, hs, hw⟩ := h
    rw [← hw]; exact A_output_inv hi hs
  | input packet =>
    simp only [A_step, bind_ok, pure_ok] at h
    obtain ⟨⟨s, acts⟩, hs, hw⟩ := h
    rw [← hw]; exact A_input_inv hi hs
  | timerinterrupt =>
    simp only [A_step] at h
    split at h
    · simp only [bind_ok, pure_ok] at h
      obtain ⟨⟨s, acts⟩, hs, hw⟩ := h
      rw [← hw]; exact A_timerinterrupt_inv hi hs
    · exact absurd h (by simp)

theorem A_run_inv (es : List AEvent) : ∀ (w w1 : ASys), A_inv w.st → A_run w es = .ok w1 →
    A_inv w1.st := by
  induction es with
  | nil =>
    intro w w1 hi h
    simp only [A_run, pure_ok] at h
    rw [← h]; exact hi
  | cons e es ih =>
    intro w w1 hi h
    simp only [A_run, bind_ok] at h
    obtain ⟨w2, h2, h3⟩ := h
    exact ih w2 w1 (A_step_inv hi h2) h3

theorem A_start_inv : A_inv A_start.st := by
  refine ⟨by decide, by decide, by decide, by decide, by decide, by decide, ?_, by decide,
    by decide, by decide, by decide, ?_, Or.inl (by decide)⟩
  · intro _; exact ⟨by decide, by decide⟩
  · intro p hp
    have : p = ⟨0, 0, 0, List.replicate 20 0⟩ := by
      have hp2 : p ∈ List.replicate 6 (⟨0, 0, 0, List.replicate 20 0⟩ : pkt) := hp
      exact (List.mem_replicate.1 hp2).2
    rw [this]; decide

theorem A_reachable_inv {w : ASys} (h : A_reachable w) : A_inv w.st := by
  obtain ⟨es, hes⟩ := h
  exact A_run_inv es A_start w A_start_inv hes

theorem bind_error {ε α β : Type} {x : Except ε α} {f : α → Except ε β} {e : ε} :
    (x >>= f) = .error e ↔ x = .error e ∨ ∃ a, x = .ok a ∧ f a = .error e := by
  cases x <;> simp [bind, Except.bind]

theorem count_true_set_false {l : List Bool} {i : Int} (h : rd l i = .ok true) :
    (l.set i.toNat false).count true + 1 = l.count true := by
  obtain ⟨h0, h1⟩ := rd_ok.1 h
  obtain ⟨hlt, hget⟩ := List.getElem?_eq_some_iff.1 h1
  rw [List.count_set false true l i.toNat hlt]
  have hpos : 0 < l.count true := by
    rw [List.count_pos_iff]
    exact List.mem_iff_getElem?.2 ⟨_, h1⟩
  simp only [hget, beq_self_eq_true, if_true, Bool.false_eq_true, if_false]
  have : (false == true) = false := rfl
  simp only [this, Bool.false_eq_true, if_false]
  omega

theorem A_slide_fuel (fuel : Nat) : ∀ (s : Sender) (b : Bool), s.a_acked.count true < fuel →
    A_slide fuel s b ≠ .error .outOfFuel := by
  induction fuel with
  | zero => intro s b h; omega
  | succ n ih =>
    intro s b hcount h
    simp only [A_slide, bind_error] at h
    rcases h with h | ⟨p, hp, h⟩
    · unfold rd at h; split at h
      · split at h <;> simp at h
      · simp at h
    rcases h with h | ⟨c, hc, h⟩
    · unfold rd at h; split at h
      · split at h <;> simp at h
      · simp at h
    cases c with
    | false => simp [pure, Except.pure] at h
    | true =>
      simp only [if_true, bind_error] at h
      rcases h with h | ⟨acked, hw, h⟩
      · unfold wr at h; split at h <;> simp at h
      · refine ih _ true ?_ h
        show acked.count true < n
        rw [(wr_ok.1 hw).2]
        have := count_true_set_false hc
        omega

/-! ## Receiver lemmas -/

theorem B_slide_spec (fuel : Nat) : ∀ (s : Receiver) (r : Receiver × List Action),
    B_slide fuel s = .ok r →
    s.b_acked.length = 12 → 0 ≤ s.b_windowbase → s.b_windowbase ≤ 6 →
    (∀ i : Int, 6 ≤ i → rd s.b_acked i ≠ .ok true) →
    ∃ acked base, r.1 = { s with b_acked := acked, b_windowbase := base } ∧
      acked.length = 12 ∧ s.b_windowbase ≤ base ∧ base ≤ 6 ∧
      rd acked base = .ok false ∧
      (∀ i : Int, 6 ≤ i → rd acked i ≠ .ok true) ∧
      (rd s.b_acked s.b_windowbase = .ok true → s.b_windowbase < base) := by
  induction fuel with
  | zero => intro s r h; simp [B_slide] at h
  | succ n ih =>
    intro s r h hlen hb0 hb1 hhigh
    simp only [B_slide, bind_ok] at h
    obtain ⟨c, hc, h⟩ := h
    cases c with
    | true =>
      simp only [if_true, bind_ok, pure_ok] at h
      obtain ⟨buffered, hbuf, acked, hw, r1, hr1, hr⟩ := h
      have hb5 : s.b_windowbase < 6 := by
        by_contra hge
        exact hhigh s.b_windowbase (by omega) hc
      have hlen2 : acked.length = 12 := by
        rw [(wr_ok.1 hw).2, List.length_set]; exact hlen
      have hnext : (s.b_windowbase + 1).tmod SEQSPACE = s.b_windowbase + 1 := by
        rw [SEQSPACE_eq, Int.tmod_eq_emod (by omega) (by decide)]
        omega
      have hhigh2 : ∀ i : Int, 6 ≤ i → rd acked i ≠ .ok true := by
        intro i hi
        rw [(wr_ok.1 hw).2, rd_set_ne hb0 (by omega) (by omega)]
        exact hhigh i hi
      obtain ⟨acked2, base2, hr2, hl2, hle, hhi, hclr, hh2, -⟩ :=
        ih { s with b_acked := acked, b_windowbase := (s.b_windowbase + 1).tmod SEQSPACE } r1
          hr1 hlen2 (by show 0 ≤ (s.b_windowbase + 1).tmod SEQSPACE; rw [hnext]; omega)
          (by show (s.b_windowbase + 1).tmod SEQSPACE ≤ 6; rw [hnext]; omega) hhigh2
      have hle2 : (s.b_windowbase + 1).tmod SEQSPACE ≤ base2 := hle
      rw [hnext] at hle2
      refine ⟨acked2, base2, ?_, hl2, by omega, hhi, hclr, hh2, fun _ => by omega⟩
      rw [← hr, hr2]
    | false =>
      simp only [Bool.false_eq_true, if_false, pure_ok] at h
      subst h
      refine ⟨s.b_acked, s.b_windowbase, rfl, hlen, le_refl _, hb1, hc, hhigh, ?_⟩
      intro h2
      rw [hc] at h2
      exact absurd h2 (by simp)

theorem B_slide_stay {n : Nat} {s : Receiver} (h : rd s.b_acked s.b_windowbase = .ok false) :
    B_slide (n + 1) s = .ok (s, []) := by
  simp [B_slide, h, bind, Except.bind, pure, Except.pure]

theorem B_buffer_spec {s s2 : Receiver} {packet : pkt} (h : B_buffer s packet = .ok s2) :
    (s2 = s ∧ (B_inwindow s.b_windowbase packet.seqnum = true →
        rd s.b_acked packet.seqnum = .ok true)) ∨
    (B_inwindow s.b_windowbase packet.seqnum = true ∧
      rd s.b_acked packet.seqnum = .ok false ∧
      0 ≤ packet.seqnum ∧ packet.seqnum < s.b_window.length ∧
      s2 = { s with b_acked := s.b_acked.set packet.seqnum.toNat true,
                    b_window := s.b_window.set packet.seqnum.toNat packet }) := by
  unfold B_buffer at h
  split at h
  · rename_i hin
    simp only [bind_ok] at h
    obtain ⟨c, hc, h⟩ := h
    cases c with
    | false =>
      simp only [Bool.not_false, if_true, bind_ok, pure_ok] at h
      obtain ⟨acked, ha, window, hw, hs⟩ := h
      obtain ⟨hwb, hweq⟩ := wr_ok.1 hw
      right
      refine ⟨hin, hc, hwb.1, hwb.2, ?_⟩
      rw [← hs, hweq, (wr_ok.1 ha).2]
    | true =>
      simp only [Bool.not_true, Bool.false_eq_true, if_false, pure_ok] at h
      exact Or.inl ⟨h.symm, fun _ => hc⟩
  · rename_i hin
    simp only [pure_ok] at h
    exact Or.inl ⟨h.symm, fun h2 => absurd h2 hin⟩

theorem alt_flip {n : Int} (h : n = 0 ∨ n = 1) :
    ((n + 1).tmod 2 = 0 ∨ (n + 1).tmod 2 = 1) ∧ ((n + 1).tmod 2 + 1).tmod 2 = n := by
  rcases h with h | h <;> subst h <;> decide

theorem B_inwindow_below {base seq : Int} (h0 : 0 ≤ seq) (h1 : seq < base) (h2 : base ≤ 6) :
    B_inwindow base seq = false := by
  unfold B_inwindow
  simp only [WINDOWSIZE_eq, SEQSPACE_eq]
  by_cases hb : base = 6
  · subst hb
    have h3 : ¬ (seq ≥ 6 ∨ seq < 0) := by omega
    have h4 : ((6 : Int) + 6).tmod 12 = 0 := by decide
    simp [h3, h4]
  · have h3 : (base + 6).tmod 12 = base + 6 := by
      rw [Int.tmod_eq_emod (by omega) (by decide)]; omega
    have h4 : ¬ (seq ≥ base ∧ seq < base + 6) := by omega
    simp [h3, h4]

theorem B_accept_spec {t s2 : Receiver} {packet : pkt} {r : Receiver × List Action}
    (hi : B_inv t) (hbuf : B_buffer t packet = .ok s2)
    (hslide : B_slide (s2.b_acked.length + 1)
      { s2 with B_nextseqnum := (s2.B_nextseqnum + 1).tmod 2 } = .ok r) :
    B_inv { r.1 with B_nextseqnum := (r.1.B_nextseqnum + 1).tmod 2 } ∧
    (B_inwindow r.1.b_windowbase packet.seqnum = true →
      rd r.1.b_acked packet.seqnum = .ok true) := by
  have hflip := (alt_flip (alt_flip hi.alt).1).1
  rcases B_buffer_spec hbuf with ⟨h2, hdup⟩ | ⟨hin, hnew, hs0, hs6, h2⟩
  · subst h2
    rw [B_slide_stay (by exact hi.base_clear)] at hslide
    simp only [Except.ok.injEq] at hslide
    subst hslide
    exact ⟨⟨hi.window_len, hi.acked_len, hi.base_lo, hi.base_hi, hi.base_clear, hi.high_clear,
      hflip⟩, hdup⟩
  · rw [hi.window_len] at hs6
    have hs6 : packet.seqnum < 6 := by exact_mod_cast hs6
    have hs12 : packet.seqnum < (t.b_acked.length : Int) := by rw [hi.acked_len]; omega
    subst h2
    have hlen : (t.b_acked.set packet.seqnum.toNat true).length = 12 := by
      rw [List.length_set]; exact hi.acked_len
    have hhigh : ∀ i : Int, 6 ≤ i → rd (t.b_acked.set packet.seqnum.toNat true) i ≠ .ok true := by
      intro i h6
      rw [rd_set_ne hs0 (by omega) (by omega)]
      exact hi.high_clear i h6
    obtain ⟨acked, base, hr, hl, hle, hhi, hclr, hh, hlt⟩ :=
      B_slide_spec _ _ r hslide hlen hi.base_lo hi.base_hi hhigh
    rw [hr]
    refine ⟨⟨?_, hl, le_trans hi.base_lo hle, hhi, hclr, hh, hflip⟩, ?_⟩
    · show (t.b_window.set packet.seqnum.toNat packet).length = 6
      rw [List.length_set]; exact hi.window_len
    · show B_inwindow base packet.seqnum = true → rd acked packet.seqnum = .ok true
      by_cases hsame : packet.seqnum = t.b_windowbase
      · have hlt2 : t.b_windowbase < base := by
          apply hlt
          show rd (t.b_acked.set packet.seqnum.toNat true) t.b_windowbase = .ok true
          rw [← hsame]
          exact rd_set_same hs0 hs12
        intro hin2
        rw [B_inwindow_below hs0 (by omega) hhi] at hin2
        exact absurd hin2 (by decide)
      · have hstay : rd (t.b_acked.set packet.seqnum.toNat true) t.b_windowbase = .ok false := by
          rw [rd_set_ne hs0 hi.base_lo hsame]; exact hi.base_clear
        rw [B_slide_stay (by exact hstay)] at hslide
        simp only [Except.ok.injEq] at hslide
        rw [← hslide] at hr
        simp only [Receiver.mk.injEq, true_and] at hr
        intro _
        rw [← hr.2.1]
        exact rd_set_same hs0 hs12

theorem B_inv_counter {s : Receiver} (hi : B_inv s) (n : Int) :
    B_inv { s with packets_received := n } :=
  ⟨hi.window_len, hi.acked_len, hi.base_lo, hi.base_hi, hi.base_clear, hi.high_clear, hi.alt⟩

theorem B_input_first {s s1 : Receiver} {packet sendpkt : pkt} {acts : List Action}
    (hi : B_inv s) (hc : IsCorrupted packet = false)
    (h : B_input s packet sendpkt = .ok (s1, acts)) :
    B_inv s1 ∧ (B_inwindow s1.b_windowbase packet.seqnum = true →
      rd s1.b_acked packet.seqnum = .ok true) := by
  unfold B_input at h
  simp only [hc, Bool.not_false, if_true, bind_ok, pure_ok, B_send, Prod.mk.injEq] at h
  obtain ⟨s2, hbuf, r, hslide, hs1, -⟩ := h
  have := B_accept_spec (B_inv_counter hi _) hbuf hslide
  rw [← hs1]
  exact this

theorem B_input_inv {s s1 : Receiver} {packet sendpkt : pkt} {acts : List Action}
    (hi : B_inv s) (h : B_input s packet sendpkt = .ok (s1, acts)) : B_inv s1 := by
  cases hc : IsCorrupted packet with
  | false => exact (B_input_first hi hc h).1
  | true =>
    unfold B_input at h
    simp only [hc, Bool.not_true, Bool.false_eq_true, if_false, pure_ok, B_send,
      Prod.mk.injEq] at h
    rw [← h.1]
    exact ⟨hi.window_len, hi.acked_len, hi.base_lo, hi.base_hi, hi.base_clear, hi.high_clear,
      (alt_flip hi.alt).1⟩

theorem B_run_inv (arrivals : List (pkt × pkt)) : ∀ (s s1 : Receiver) (acts : List Action),
    B_inv s → B_run s arrivals = .ok (s1, acts) → B_inv s1 := by
  induction arrivals with
  | nil =>
    intro s s1 acts hi h
    simp only [B_run, pure_ok, Prod.mk.injEq] at h
    rw [← h.1]; exact hi
  | cons a rest ih =>
    intro s s1 acts hi h
    obtain ⟨packet, sendpkt⟩ := a
    simp only [B_run, bind_ok, pure_ok, Prod.mk.injEq] at h
    obtain ⟨⟨s2, acts2⟩, h2, ⟨s3, acts3⟩, h3, h4, -⟩ := h
    rw [← h4]
    exact ih s2 s3 acts3 (B_input_inv hi h2) h3

theorem B_start_inv : B_inv B_start := by
  refine ⟨by decide, by decide, by decide, by decide, by rfl, ?_, by decide⟩
  intro i hi h
  have hlt := (rd_lt h).2
  have hlen : B_start.b_acked.length = 12 := by decide
  rw [hlen] at hlt
  have hmem := rd_mem h
  have hall : ∀ b ∈ B_start.b_acked, b = false := by decide
  exact absurd (hall true hmem) (by decide)

theorem B_reachable_inv {s : Receiver} (h : B_reachable s) : B_inv s := by
  obtain ⟨arrivals, acts, hrun⟩ := h
  exact B_run_inv arrivals B_start s acts B_start_inv hrun

theorem B_input_again {s : Receiver} {packet sendpkt : pkt} (hi : B_inv s)
    (hc : IsCorrupted packet = false)
    (hdup : B_inwindow s.b_windowbase packet.seqnum = true →
      rd s.b_acked packet.seqnum = .ok true) :
    B_input s packet sendpkt =
      .ok ({ s with packets_received := s.packets_received + 1 },
        [Action.tolayer3 .B
          { seqnum := (s.B_nextseqnum + 1).tmod 2, acknum := packet.seqnum,
            checksum := ComputeChecksum
              { seqnum := (s.B_nextseqnum + 1).tmod 2, acknum := packet.seqnum,
                checksum := sendpkt.checksum, payload := (List.range 20).map (fun _ => 48) },
            payload := (List.range 20).map (fun _ => 48) }]) := by
  have hbuf : B_buffer { s with packets_received := s.packets_received + 1 } packet =
      .ok { s with packets_received := s.packets_received + 1 } := by
    unfold B_buffer
    by_cases hin : B_inwindow s.b_windowbase packet.seqnum = true
    · simp [hin, hdup hin, bind, Except.bind, pure, Except.pure]
    · simp [hin, pure, Except.pure]
  unfold B_input
  simp only [hc, Bool.not_false, if_true, hbuf, bind, Except.bind, pure, Except.pure]
  rw [B_slide_stay (by exact hi.base_clear)]
  simp only [B_send, (alt_flip hi.alt).2, List.nil_append]

/-- The loop of `B_input` calls nothing but `tolayer5`. -/
theorem B_slide_actions (fuel : Nat) : ∀ (s : Receiver) (r : Receiver × List Action),
    B_slide fuel s = .ok r → ∀ a ∈ r.2, ∃ datasent, a = Action.tolayer5 .B datasent := by
  induction fuel with
  | zero => intro s r h; simp [B_slide] at h
  | succ n ih =>
    intro s r h
    simp only [B_slide, bind_ok] at h
    obtain ⟨c, -, h⟩ := h
    cases c with
    | true =>
      simp only [if_true, bind_ok, pure_ok] at h
      obtain ⟨buffered, -, acked, -, r1, hr1, hr⟩ := h
      rw [← hr]
      intro a ha
      rcases List.mem_cons.1 ha with ha | ha
      · exact ⟨_, ha⟩
      · exact ih _ r1 hr1 a ha
    | false =>
      simp only [Bool.false_eq_true, if_false, pure_ok] at h
      rw [← h]
      intro a ha
      exact absurd ha (List.not_mem_nil a)

/-- Every call of `B_input` on an uncorrupted packet that returns has sent,
after its deliveries, exactly one packet: an uncorrupted reply whose `acknum`
is the sequence number of the packet. -/
theorem B_input_reply {s s1 : Receiver} {packet sendpkt : pkt} {acts : List Action}
    (hc : IsCorrupted packet = false) (h : B_input s packet sendpkt = .ok (s1, acts)) :
    ∃ (handed : List Action) (reply : pkt),
      acts = handed ++ [Action.tolayer3 .B reply] ∧
      (∀ a ∈ handed, ∃ datasent, a = Action.tolayer5 .B datasent) ∧
      reply.acknum = packet.seqnum ∧ IsCorrupted reply = false := by
  unfold B_input at h
  simp only [hc, Bool.not_false, if_true, bind_ok, pure_ok, B_send, Prod.mk.injEq] at h
  obtain ⟨s2, -, r, hslide, -, hacts⟩ := h
  refine ⟨r.2, _, hacts.symm, B_slide_actions _ _ r hslide, rfl, ?_⟩
  simp [IsCorrupted, ComputeChecksum]

/-! ## Sender lemmas and the settled claims -/

theorem A_slide_stay {n : Nat} {s : Sender} {b : Bool} {p : pkt}
    (hp : rd s.a_window s.a_windowfirst = .ok p) (hc : rd s.a_acked p.seqnum = .ok false) :
    A_slide (n + 1) s b = .ok (s, b) := by
  simp [A_slide, hp, hc, bind, Except.bind, pure, Except.pure]

theorem A_input_keep {s : Sender} {packet first : pkt} (hi : A_inv s)
    (hc : IsCorrupted packet = false)
    (hfirst : rd s.a_window s.a_windowfirst = .ok first)
    (h0 : 0 ≤ packet.acknum) (h1 : packet.acknum < SEQSPACE)
    (hne : packet.acknum ≠ first.seqnum) :
    ∃ s1, A_input s packet = .ok (s1, []) ∧ s1.a_windowfirst = s.a_windowfirst := by
  rw [SEQSPACE_eq] at h1
  unfold A_input
  simp only [hc, Bool.not_false, if_true]
  by_cases hcount : s.unacked_packet_count = 0
  · simp only [hcount, ne_eq, not_true_eq_false, if_false, pure, Except.pure]
    exact ⟨_, rfl, rfl⟩
  · have hlastne : s.a_windowlast ≠ -1 := fun hneg => hcount (hi.fresh hneg).1
    have hold : rd s.a_acked first.seqnum = .ok false := by
      rcases hi.oldest with ho | ⟨p, hp, hpa⟩
      · exact absurd ho hlastne
      · rw [hfirst] at hp
        simp only [Except.ok.injEq] at hp
        rw [hp]; exact hpa
    obtain ⟨last, hlast⟩ := rd_bounds (l := s.a_window) (i := s.a_windowlast)
      (by have := hi.last_lo; omega) (by rw [hi.window_len]; exact_mod_cast hi.last_hi)
    obtain ⟨c, hcr⟩ := rd_bounds (l := s.a_acked) h0 (by rw [hi.acked_len]; exact_mod_cast h1)
    simp only [ne_eq, hcount, not_false_eq_true, if_true, hfirst, hlast, bind, Except.bind]
    by_cases hr : A_inrange first.seqnum last.seqnum packet.acknum = true
    · simp only [hr, if_true, hcr]
      cases c with
      | false =>
        have hw : wr s.a_acked packet.acknum true =
            .ok (s.a_acked.set packet.acknum.toNat true) :=
          wr_ok.2 ⟨⟨h0, by rw [hi.acked_len]; exact_mod_cast h1⟩, rfl⟩
        simp only [Bool.not_false, if_true, hw, pure, Except.pure]
        rw [A_slide_stay (p := first) (by exact hfirst)
          (by
            show rd (s.a_acked.set packet.acknum.toNat true) first.seqnum = .ok false
            rw [rd_set_ne h0 (hi.seq_ok first (rd_mem hfirst)).1 hne]; exact hold)]
        exact ⟨_, rfl, rfl⟩
      | true =>
        simp only [Bool.not_true, Bool.false_eq_true, if_false, pure, Except.pure]
        rw [A_slide_stay (p := first) (by exact hfirst) (by exact hold)]
        exact ⟨_, rfl, rfl⟩
    · simp only [hr, Bool.false_eq_true, if_false, pure, Except.pure]
      exact ⟨_, rfl, rfl⟩

theorem A_input_acknum_bounds {s s1 : Sender} {packet : pkt} {acts : List Action}
    (hi : A_inv s) (h : A_input s packet = .ok (s1, acts))
    (hmove : s1.a_windowfirst ≠ s.a_windowfirst) :
    IsCorrupted packet = false ∧ 0 ≤ packet.acknum ∧ packet.acknum < SEQSPACE := by
  unfold A_input at h
  split at h
  · rename_i hc
    simp only at h
    split at h
    · simp only [bind_ok] at h
      obtain ⟨f, hf, l, hl, h⟩ := h
      split at h
      · simp only [bind_ok] at h
        obtain ⟨c, hcr, -⟩ := h
        have hb := rd_lt hcr
        rw [hi.acked_len] at hb
        refine ⟨by simpa using hc, hb.1, ?_⟩
        rw [SEQSPACE_eq]; exact_mod_cast hb.2
      · simp only [pure_ok, Prod.mk.injEq] at h
        exact absurd (by rw [← h.1]) hmove
    · simp only [pure_ok, Prod.mk.injEq] at h
      exact absurd (by rw [← h.1]) hmove
  · simp only [pure_ok, Prod.mk.injEq] at h
    exact absurd (by rw [← h.1]) hmove

theorem A_output_first {s s1 : Sender} {message : msg} {acts : List Action}
    (h : A_output s message = .ok (s1, acts)) : s1.a_windowfirst = s.a_windowfirst := by
  unfold A_output at h
  split at h
  · simp only [bind_ok, pure_ok, Prod.mk.injEq] at h
    obtain ⟨_, _, _, _, hs, -⟩ := h
    rw [← hs]
  · simp only [pure_ok, Prod.mk.injEq] at h
    rw [← h.1]

theorem A_timerinterrupt_first {s s1 : Sender} {acts : List Action}
    (h : A_timerinterrupt s = .ok (s1, acts)) : s1.a_windowfirst = s.a_windowfirst := by
  unfold A_timerinterrupt at h
  simp only [bind_ok, pure_ok, Prod.mk.injEq] at h
  obtain ⟨_, _, _, _, hs, -⟩ := h
  rw [← hs]

/-- C3. In every state reachable from `A_init` by `A_output` (any message),
`A_input` (any packet) and `A_timerinterrupt` events that return,
`0 <= unacked_packet_count <= WINDOWSIZE`. -/
theorem unacked_packet_count_bounded (w : ASys) (h : A_reachable w) :
    0 ≤ w.st.unacked_packet_count ∧ w.st.unacked_packet_count ≤ WINDOWSIZE :=
  ⟨(A_reachable_inv h).count_lo, (A_reachable_inv h).count_hi⟩

/-- C5. In a reachable sender state, an uncorrupted packet whose `acknum` is a
sequence number (`0 <= acknum < SEQSPACE`, which every member of the
outstanding range is) other than that of `a_window[a_windowfirst]` makes
`A_input` return with `a_windowfirst` unchanged and without any call to the
emulator, so neither `stoptimer` nor `starttimer`; and an event that changes
`a_windowfirst` is an `A_input` of an uncorrupted packet whose `acknum` is the
sequence number of `a_window[a_windowfirst]`. -/
theorem A_input_non_cumulative (w : ASys) (h : A_reachable w) :
    (∀ packet first : pkt, IsCorrupted packet = false →
      rd w.st.a_window w.st.a_windowfirst = .ok first →
      0 ≤ packet.acknum → packet.acknum < SEQSPACE → packet.acknum ≠ first.seqnum →
      ∃ s1, A_input w.st packet = .ok (s1, []) ∧ s1.a_windowfirst = w.st.a_windowfirst) ∧
    (∀ (e : AEvent) (w1 : ASys), A_step w e = .ok w1 →
      w1.st.a_windowfirst ≠ w.st.a_windowfirst →
      ∃ packet first : pkt, e = .input packet ∧ IsCorrupted packet = false ∧
        rd w.st.a_window w.st.a_windowfirst = .ok first ∧ packet.acknum = first.seqnum) := by
  have hi := A_reachable_inv h
  refine ⟨fun packet first hc hfirst h0 h1 hne => A_input_keep hi hc hfirst h0 h1 hne, ?_⟩
  intro e w1 hstep hmove
  cases e with
  | output message =>
    simp only [A_step, bind_ok, pure_ok] at hstep
    obtain ⟨⟨s, acts⟩, hs, hw⟩ := hstep
    rw [← hw] at hmove
    exact absurd (A_output_first hs) hmove
  | timerinterrupt =>
    simp only [A_step] at hstep
    split at hstep
    · simp only [bind_ok, pure_ok] at hstep
      obtain ⟨⟨s, acts⟩, hs, hw⟩ := hstep
      rw [← hw] at hmove
      exact absurd (A_timerinterrupt_first hs) hmove
    · exact absurd hstep (by simp)
  | input packet =>
    simp only [A_step, bind_ok, pure_ok] at hstep
    obtain ⟨⟨s, acts⟩, hs, hw⟩ := hstep
    rw [← hw] at hmove
    obtain ⟨first, hfirst⟩ := rd_bounds (l := w.st.a_window) hi.first_lo
      (by rw [hi.window_len]; exact_mod_cast hi.first_hi)
    obtain ⟨hc, h0, h1⟩ := A_input_acknum_bounds hi hs hmove
    refine ⟨packet, first, rfl, hc, hfirst, ?_⟩
    by_contra hne
    obtain ⟨s1, hs1, hsame⟩ := A_input_keep hi hc hfirst h0 h1 hne
    rw [hs] at hs1
    simp only [Except.ok.injEq, Prod.mk.injEq] at hs1
    rw [hs1.1] at hmove
    exact hmove hsame

/-- C9. With `unacked_packet_count = WINDOWSIZE`, `A_output` sends no packet,
makes no timer call and changes nothing but `window_full`, which grows by 1;
the timer flag stays as it was. -/
theorem A_output_window_full (s : Sender) (message : msg) (armed : Bool)
    (h : s.unacked_packet_count = WINDOWSIZE) :
    A_output s message = .ok ({ s with window_full := s.window_full + 1 }, []) ∧
    A_step ⟨s, armed⟩ (.output message) =
      .ok ⟨{ s with window_full := s.window_full + 1 }, armed⟩ := by
  have h1 : A_output s message = .ok ({ s with window_full := s.window_full + 1 }, []) := by
    unfold A_output
    rw [h]
    simp [pure, Except.pure]
  refine ⟨h1, ?_⟩
  simp [A_step, h1, bind, Except.bind, pure, Except.pure, timerAfter]

/-- C10. A packet whose checksum field differs from `ComputeChecksum` leaves the
whole sender state, counters included, and the timer unchanged, and `A_input`
makes no call to the emulator. -/
theorem A_input_corrupted (s : Sender) (packet : pkt) (armed : Bool)
    (h : packet.checksum ≠ ComputeChecksum packet) :
    A_input s packet = .ok (s, []) ∧
    A_step ⟨s, armed⟩ (.input packet) = .ok ⟨s, armed⟩ := by
  have hc : IsCorrupted packet = true := by simp [IsCorrupted, h]
  have h1 : A_input s packet = .ok (s, []) := by
    simp [A_input, hc, pure, Except.pure]
  refine ⟨h1, ?_⟩
  simp [A_step, h1, bind, Except.bind, pure, Except.pure, timerAfter]

/-! ## The loops never run out of fuel -/

theorem rd_error {α : Type} {xs : List α} {i : Int} {e : Fault} (h : rd xs i = .error e) :
    e = .outOfBounds := by
  unfold rd at h
  split at h
  · split at h <;> simp at h
    exact h.symm
  · simp at h
    exact h.symm

theorem wr_error {α : Type} {xs : List α} {i : Int} {v : α} {e : Fault}
    (h : wr xs i v = .error e) : e = .outOfBounds := by
  unfold wr at h
  split at h <;> simp at h
  exact h.symm

theorem B_slide_fuel (fuel : Nat) : ∀ (s : Receiver), s.b_acked.count true < fuel →
    B_slide fuel s ≠ .error .outOfFuel := by
  induction fuel with
  | zero => intro s h; omega
  | succ n ih =>
    intro s hcount h
    simp only [B_slide, bind_error] at h
    rcases h with h | ⟨c, hc, h⟩
    · exact absurd (rd_error h) (by decide)
    cases c with
    | false => simp [pure, Except.pure] at h
    | true =>
      simp only [if_true, bind_error] at h
      rcases h with h | ⟨buffered, hb, h⟩
      · exact absurd (rd_error h) (by decide)
      rcases h with h | ⟨acked, hw, h⟩
      · exact absurd (wr_error h) (by decide)
      rcases h with h | ⟨r, hr, h⟩
      · refine ih _ ?_ h
        show acked.count true < n
        rw [(wr_ok.1 hw).2]
        have := count_true_set_false hc
        omega
      · simp [pure, Except.pure] at h

theorem pure_ne_error {α : Type} {a : α} {e : Fault} : (pure a : Except Fault α) ≠ .error e := by
  simp [pure, Except.pure]

theorem A_input_fuel (s : Sender) (packet : pkt) : A_input s packet ≠ .error .outOfFuel := by
  intro h
  unfold A_input at h
  split at h
  · simp only at h
    split at h
    · simp only [bind_error] at h
      rcases h with h | ⟨first, -, h⟩
      · exact absurd (rd_error h) (by decide)
      rcases h with h | ⟨last, -, h⟩
      · exact absurd (rd_error h) (by decide)
      split at h
      · simp only [bind_error] at h
        rcases h with h | ⟨c, -, h⟩
        · exact absurd (rd_error h) (by decide)
        cases c with
        | false =>
          simp only [Bool.not_false, if_true, bind_error] at h
          rcases h with h | ⟨acked, -, h⟩
          · exact absurd (wr_error h) (by decide)
          rcases h with h | ⟨s3, -, h⟩
          · exact pure_ne_error h
          rcases h with h | ⟨r, -, h⟩
          · exact A_slide_fuel _ s3 false (Nat.lt_succ_of_le (List.count_le_length _ _)) h
          · exact pure_ne_error h
        | true =>
          simp only [Bool.not_true, Bool.false_eq_true, if_false, bind_error] at h
          rcases h with h | ⟨s3, -, h⟩
          · exact pure_ne_error h
          rcases h with h | ⟨r, -, h⟩
          · exact A_slide_fuel _ s3 false (Nat.lt_succ_of_le (List.count_le_length _ _)) h
          · exact pure_ne_error h
      · exact pure_ne_error h
    · exact pure_ne_error h
  · exact pure_ne_error h

theorem B_input_fuel (s : Receiver) (packet sendpkt : pkt) :
    B_input s packet sendpkt ≠ .error .outOfFuel := by
  intro h
  unfold B_input at h
  split at h
  · simp only [bind_error] at h
    rcases h with h | ⟨s2, -, h⟩
    · unfold B_buffer at h
      split at h
      · simp only [bind_error] at h
        rcases h with h | ⟨c, -, h⟩
        · exact absurd (rd_error h) (by decide)
        cases c with
        | false =>
          simp only [Bool.not_false, if_true, bind_error] at h
          rcases h with h | ⟨acked, -, h⟩
          · exact absurd (wr_error h) (by decide)
          rcases h with h | ⟨window, -, h⟩
          · exact absurd (wr_error h) (by decide)
          · exact pure_ne_error h
        | true => exact pure_ne_error h
      · exact pure_ne_error h
    rcases h with h | ⟨r, -, h⟩
    · exact B_slide_fuel _ _ (Nat.lt_succ_of_le (List.count_le_length _ _)) h
    · exact pure_ne_error h
  · exact pure_ne_error h

/-! ## Runs of the code on which claims fail -/

/-- C1. Six uncorrupted packets with sequence numbers 0 to 5 arrive in order
and their payloads are delivered in order, which moves `b_windowbase` to 6.
The next packet, sequence number 6, is uncorrupted and inside the window
`[6, 12)`, and `B_input` stores it at `b_window[6]`, outside the `WINDOWSIZE`
slots of `b_window`: the call has no result and the seventh payload is not
delivered. -/
theorem B_input_store_past_window :
    (B_run B_start exInOrder).toOption.map (fun r => (r.1.b_windowbase, delivered r.2)) =
      some (6, [List.replicate 20 65, List.replicate 20 66, List.replicate 20 67,
        List.replicate 20 68, List.replicate 20 69, List.replicate 20 70]) ∧
    IsCorrupted (exData 6 71) = false ∧
    B_inwindow (B_after exInOrder).1.b_windowbase (exData 6 71).seqnum = true ∧
    B_input (B_after exInOrder).1 (exData 6 71) exJunk = .error .outOfBounds ∧
    B_run B_start (exInOrder ++ [(exData 6 71, exJunk)]) = .error .outOfBounds := by
  refine ⟨by rfl, by rfl, by rfl, by rfl, by rfl⟩

/-- C2. After the window is filled with packets 0 to 5 and packet 1 is
acknowledged, `a_window[a_windowfirst]` is packet 0, which is not acknowledged.
The next `A_output` is accepted because `unacked_packet_count` is 5, and stores
packet 6 at slot 0: packet 0 is still not marked in `a_acked`, is in no slot of
`a_window` any more, and `a_window[a_windowfirst]` is packet 6. -/
theorem A_output_overwrites_oldest :
    (A_run A_start (exFill ++ [.input (exAck 1)])).toOption.map
        (fun w => (w.st.a_windowfirst, w.st.a_window.map (fun p => p.seqnum),
          w.st.a_acked.take 7, w.st.unacked_packet_count)) =
      some (0, [0, 1, 2, 3, 4, 5], [false, true, false, false, false, false, true], 5) ∧
    (A_run A_start exOverwrite).toOption.map
        (fun w => (w.st.a_windowfirst, w.st.a_window.map (fun p => p.seqnum),
          w.st.a_acked.take 7, w.st.unacked_packet_count)) =
      some (0, [6, 1, 2, 3, 4, 5], [false, true, false, false, false, false, false], 6) ∧
    rd (A_after exOverwrite).st.a_window (A_after exOverwrite).st.a_windowfirst =
      .ok (exData 6 6) := by
  refine ⟨by rfl, by rfl, by rfl⟩

/-- C4. After the events of `exTimerLeft`, all of which return, the timer is
armed while `unacked_packet_count` is 0. -/
theorem A_timer_armed_with_count_zero :
    (A_run A_start exTimerLeft).toOption.map
        (fun w => (w.timer, w.st.unacked_packet_count)) = some (true, 0) := by
  rfl

/-- C6. In the state reached by `exOverwrite` an acknowledgment of packet 6 is
delivered twice.  The first `A_input` leaves `unacked_packet_count` at 5 and
slides `a_windowfirst` to 2; the second finds 6 inside the range from 2 to 6 and
not marked, marks it and lowers `unacked_packet_count` to 4. -/
theorem A_input_duplicate_ack_counts_twice :
    IsCorrupted (exAck 6) = false ∧
    (A_run A_start (exOverwrite ++ [.input (exAck 6)])).toOption.map
        (fun w => (w.st.a_windowfirst, w.st.a_acked.take 7, w.st.unacked_packet_count)) =
      some (2, [false, false, false, false, false, false, false], 5) ∧
    (A_run A_start (exOverwrite ++ [.input (exAck 6), .input (exAck 6)])).toOption.map
        (fun w => (w.st.a_windowfirst, w.st.a_acked.take 7, w.st.unacked_packet_count)) =
      some (2, [false, false, false, false, false, false, true], 4) := by
  refine ⟨by rfl, by rfl, by rfl⟩

/-! ## The settled claims at sample inputs -/

/-- Witness for C3: the state after six accepted messages. -/
theorem unacked_packet_count_bounded_witness :
    A_reachable (A_after exFill) ∧
    0 ≤ (A_after exFill).st.unacked_packet_count ∧
    (A_after exFill).st.unacked_packet_count ≤ WINDOWSIZE :=
  ⟨⟨exFill, by rfl⟩, unacked_packet_count_bounded (A_after exFill) ⟨exFill, by rfl⟩⟩

/-- Witness for C5: with packets 0 to 5 outstanding, an acknowledgment of packet 2. -/
theorem A_input_non_cumulative_witness :
    A_reachable (A_after exFill) ∧ IsCorrupted (exAck 2) = false ∧
    rd (A_after exFill).st.a_window (A_after exFill).st.a_windowfirst = .ok (exData 0 0) ∧
    (exAck 2).acknum ≠ (exData 0 0).seqnum ∧
    ∃ s1, A_input (A_after exFill).st (exAck 2) = .ok (s1, []) ∧
      s1.a_windowfirst = (A_after exFill).st.a_windowfirst :=
  ⟨⟨exFill, by rfl⟩, by rfl, by rfl, by decide,
    (A_input_non_cumulative (A_after exFill) ⟨exFill, by rfl⟩).1 (exAck 2) (exData 0 0)
      (by rfl) (by rfl) (by decide) (by decide) (by decide)⟩

/-- Witness for C9: a seventh message while six packets are outstanding. -/
theorem A_output_window_full_witness :
    (A_after exFill).st.unacked_packet_count = WINDOWSIZE ∧
    A_output (A_after exFill).st (exMsg 9) =
      .ok ({ (A_after exFill).st with window_full := (A_after exFill).st.window_full + 1 }, []) ∧
    A_step ⟨(A_after exFill).st, true⟩ (.output (exMsg 9)) =
      .ok ⟨{ (A_after exFill).st with
              window_full := (A_after exFill).st.window_full + 1 }, true⟩ :=
  ⟨by rfl, A_output_window_full (A_after exFill).st (exMsg 9) true (by rfl)⟩

/-- Witness for C10: an acknowledgment whose checksum field is off by one. -/
theorem A_input_corrupted_witness :
    (exAck 2).checksum + 1 ≠ ComputeChecksum { exAck 2 with checksum := (exAck 2).checksum + 1 } ∧
    A_input (A_after exFill).st { exAck 2 with checksum := (exAck 2).checksum + 1 } =
      .ok ((A_after exFill).st, []) ∧
    A_step ⟨(A_after exFill).st, true⟩
        (.input { exAck 2 with checksum := (exAck 2).checksum + 1 }) =
      .ok ⟨(A_after exFill).st, true⟩ :=
  ⟨by decide,
    A_input_corrupted (A_after exFill).st { exAck 2 with checksum := (exAck 2).checksum + 1 }
      true (by decide)⟩

/-! ## Timer expiry, accepted sends and corrupted data -/

/-- Every reachable sender state has the declared shape. -/
theorem A_inv_shape {s : Sender} (hi : A_inv s) : A_shape s :=
  ⟨hi.window_len, hi.acked_len, hi.first_lo, hi.first_hi, hi.last_lo, hi.last_hi⟩

/-- C11. In every sender state of the declared shape, `A_timerinterrupt` sends
exactly one packet, the one at `a_window[a_windowfirst]`, then calls
`starttimer` once with `RTT`; `packets_resent` grows by 1 and nothing else
changes.  As an event the firing leaves the timer armed. -/
theorem A_timerinterrupt_oldest (s : Sender) (h : A_shape s) :
    ∃ oldest : pkt, rd s.a_window s.a_windowfirst = .ok oldest ∧
      A_timerinterrupt s =
        .ok ({ s with packets_resent := s.packets_resent + 1 },
          [Action.tolayer3 .A oldest, Action.starttimer .A RTT]) ∧
      A_step ⟨s, true⟩ .timerinterrupt =
        .ok ⟨{ s with packets_resent := s.packets_resent + 1 }, true⟩ := by
  obtain ⟨hw, -, hf0, hf1, -, -⟩ := h
  rw [WINDOWSIZE_eq] at hf1
  obtain ⟨oldest, hold⟩ := rd_bounds (l := s.a_window) hf0 (by rw [hw]; exact_mod_cast hf1)
  have hidx : s.a_windowfirst.tmod WINDOWSIZE = s.a_windowfirst := by
    rw [WINDOWSIZE_eq, Int.tmod_eq_emod hf0 (by decide)]; omega
  have h1 : A_timerinterrupt s =
      .ok ({ s with packets_resent := s.packets_resent + 1 },
        [Action.tolayer3 .A oldest, Action.starttimer .A RTT]) := by
    simp [A_timerinterrupt, hidx, hold, bind, Except.bind, pure, Except.pure]
  refine ⟨oldest, hold, h1, ?_⟩
  simp [A_step, h1, bind, Except.bind, pure, Except.pure, timerAfter]

/-- C14. For every receiver state and every packet whose checksum field differs
from `ComputeChecksum`, `B_input` delivers nothing to layer 5, leaves
`b_windowbase`, `b_acked`, `b_window` and `packets_received` as they were, and
sends exactly one packet; only `B_nextseqnum` is flipped. -/
theorem B_input_corrupted (s : Receiver) (packet sendpkt : pkt)
    (h : packet.checksum ≠ ComputeChecksum packet) :
    ∃ reply : pkt,
      B_input s packet sendpkt =
        .ok ({ s with B_nextseqnum := (s.B_nextseqnum + 1).tmod 2 },
          [Action.tolayer3 .B reply]) ∧
      reply.seqnum = s.B_nextseqnum := by
  have hc : IsCorrupted packet = true := by simp [IsCorrupted, h]
  have h1 : B_input s packet sendpkt = .ok (B_send s sendpkt []) := by
    simp [B_input, hc, pure, Except.pure]
  exact ⟨_, h1, rfl⟩

/-- C12. In a sender state of the declared shape with
`unacked_packet_count < WINDOWSIZE` and `0 <= A_nextseqnum < SEQSPACE`,
`A_output` sends exactly one packet: its `seqnum` is the old `A_nextseqnum`,
its `acknum` is `NOTINUSE`, its payload is the 20 bytes of the message and its
checksum is `ComputeChecksum` of it.  The packet is stored at slot
`(a_windowlast + 1) mod WINDOWSIZE`, `a_acked[seqnum]` is cleared, the count
grows by 1, `starttimer` is called exactly when the new count is 1, and
`A_nextseqnum` becomes `(A_nextseqnum + 1) mod SEQSPACE`, again inside
`[0, SEQSPACE)`. -/
theorem A_output_accepted (s : Sender) (message : msg) (hs : A_shape s)
    (hc : s.unacked_packet_count < WINDOWSIZE)
    (h0 : 0 ≤ s.A_nextseqnum) (h1 : s.A_nextseqnum < SEQSPACE) :
    ∃ (s1 : Sender) (packet : pkt),
      A_output s message =
        .ok (s1, Action.tolayer3 .A packet ::
          (if s.unacked_packet_count + 1 = 1 then [Action.starttimer .A RTT] else [])) ∧
      packet.seqnum = s.A_nextseqnum ∧ packet.acknum = NOTINUSE ∧
      packet.payload = (List.range 20).map (fun i => message.data.getD i 0) ∧
      (message.data.length = 20 → packet.payload = message.data) ∧
      packet.checksum = ComputeChecksum packet ∧ IsCorrupted packet = false ∧
      s1 = { s with
        a_window := s.a_window.set ((s.a_windowlast + 1) % WINDOWSIZE).toNat packet,
        a_windowlast := (s.a_windowlast + 1) % WINDOWSIZE,
        unacked_packet_count := s.unacked_packet_count + 1,
        a_acked := s.a_acked.set s.A_nextseqnum.toNat false,
        A_nextseqnum := (s.A_nextseqnum + 1) % SEQSPACE } ∧
      rd s1.a_window ((s.a_windowlast + 1) % WINDOWSIZE) = .ok packet ∧
      rd s1.a_acked packet.seqnum = .ok false ∧
      0 ≤ s1.A_nextseqnum ∧ s1.A_nextseqnum < SEQSPACE := by
  obtain ⟨hw, ha, -, -, hl0, -⟩ := hs
  rw [SEQSPACE_eq] at h1
  have hlast : (s.a_windowlast + 1).tmod WINDOWSIZE = (s.a_windowlast + 1) % WINDOWSIZE :=
    Int.tmod_eq_emod (by omega) (by decide)
  have hnext : (s.A_nextseqnum + 1).tmod SEQSPACE = (s.A_nextseqnum + 1) % SEQSPACE :=
    Int.tmod_eq_emod (by omega) (by decide)
  have hl : 0 ≤ (s.a_windowlast + 1) % WINDOWSIZE ∧
      (s.a_windowlast + 1) % WINDOWSIZE < (s.a_window.length : Int) := by
    rw [hw, WINDOWSIZE_eq]; omega
  have hn : 0 ≤ s.A_nextseqnum ∧ s.A_nextseqnum < (s.a_acked.length : Int) := by
    rw [ha]; omega
  refine ⟨_,
    ⟨s.A_nextseqnum, NOTINUSE,
      ComputeChecksum
        ⟨s.A_nextseqnum, NOTINUSE, 0, (List.range 20).map (fun i => message.data.getD i 0)⟩,
      (List.range 20).map (fun i => message.data.getD i 0)⟩,
    ?_, rfl, rfl, rfl, ?_, rfl, ?_, rfl, ?_, ?_, ?_, ?_⟩
  · unfold A_output
    simp only [hc, if_true, hlast, hnext, wr_ok.2 ⟨hl, rfl⟩, wr_ok.2 ⟨hn, rfl⟩, bind,
      Except.bind, pure, Except.pure]
  · intro hlen
    apply List.ext_getElem
    · simp [hlen]
    · intro i hi1 hi2
      simp only [List.length_map, List.length_range] at hi1
      simp [List.getD_eq_getElem?_getD, List.getElem?_eq_getElem hi2]
  · simp [IsCorrupted, ComputeChecksum]
  · exact rd_set_same hl.1 hl.2
  · exact rd_set_same hn.1 hn.2
  · show 0 ≤ (s.A_nextseqnum + 1) % SEQSPACE
    rw [SEQSPACE_eq]; omega
  · show (s.A_nextseqnum + 1) % SEQSPACE < SEQSPACE
    rw [SEQSPACE_eq]; omega

/-- Witness for C11: the timer fires while packets 0 to 5 are outstanding. -/
theorem A_timerinterrupt_oldest_witness :
    A_shape (A_after exFill).st ∧
    ∃ oldest : pkt,
      rd (A_after exFill).st.a_window (A_after exFill).st.a_windowfirst = .ok oldest ∧
      A_timerinterrupt (A_after exFill).st =
        .ok ({ (A_after exFill).st with
                packets_resent := (A_after exFill).st.packets_resent + 1 },
          [Action.tolayer3 .A oldest, Action.starttimer .A RTT]) ∧
      A_step ⟨(A_after exFill).st, true⟩ .timerinterrupt =
        .ok ⟨{ (A_after exFill).st with
                packets_resent := (A_after exFill).st.packets_resent + 1 }, true⟩ :=
  ⟨by decide, A_timerinterrupt_oldest (A_after exFill).st (by decide)⟩

/-- Witness for C14: packet 0 with a zeroed checksum field arrives right after
`B_init`. -/
theorem B_input_corrupted_witness :
    ({ exData 0 65 with checksum := 0 } : pkt).checksum ≠
      ComputeChecksum { exData 0 65 with checksum := 0 } ∧
    ∃ reply : pkt,
      B_input B_start { exData 0 65 with checksum := 0 } exJunk =
        .ok ({ B_start with B_nextseqnum := (B_start.B_nextseqnum + 1).tmod 2 },
          [Action.tolayer3 .B reply]) ∧
      reply.seqnum = B_start.B_nextseqnum :=
  ⟨by decide, B_input_corrupted B_start { exData 0 65 with checksum := 0 } exJunk (by decide)⟩

/-- Witness for C12: a seventh message once packet 0 has been acknowledged. -/
theorem A_output_accepted_witness :
    A_shape (A_after (exFill ++ [.input (exAck 0)])).st ∧
    (A_after (exFill ++ [.input (exAck 0)])).st.unacked_packet_count < WINDOWSIZE ∧
    ∃ (s1 : Sender) (packet : pkt),
      A_output (A_after (exFill ++ [.input (exAck 0)])).st (exMsg 6) =
        .ok (s1, [Action.tolayer3 .A packet]) ∧
      packet = exData 6 6 ∧ rd s1.a_window 0 = .ok packet ∧ s1.A_nextseqnum = 7 := by
  obtain ⟨s1, packet, h1, h2, h3, h4, h5, h6, h7, h8, h9, h10, h11, h12⟩ :=
    A_output_accepted (A_after (exFill ++ [.input (exAck 0)])).st (exMsg 6) (by decide)
      (by decide) (by decide) (by decide)
  refine ⟨by decide, by decide, s1, packet, h1, ?_, h9, ?_⟩
  · cases packet
    simp only at h2 h3 h4 h6
    subst h2 h3 h4
    rw [h6]
    rfl
  · rw [h8]; rfl

/-! ## Checksum -/

/-- Adding to the start value of a running sum adds to its result. -/
theorem foldl_add_shift (g : Nat → Int) (l : List Nat) : ∀ (a d : Int),
    l.foldl (fun c i => c + g i) (a + d) = l.foldl (fun c i => c + g i) a + d := by
  induction l with
  | nil => intro a d; rfl
  | cons x xs ih =>
    intro a d
    simp only [List.foldl_cons]
    rw [show a + d + g x = a + g x + d by ring]
    exact ih _ _

/-- Changing byte `i` of a payload changes the sum of its first `n` bytes by the
difference, when `i < n`. -/
theorem foldl_range_set (l : List Int) (i : Nat) (v : Int) (hi : i < l.length) (a : Int) :
    ∀ n : Nat,
      (List.range n).foldl (fun c j => c + (l.set i v).getD j 0) a =
        (List.range n).foldl (fun c j => c + l.getD j 0) a +
          (if i < n then v - l.getD i 0 else 0) := by
  intro n
  induction n with
  | zero => simp
  | succ n ih =>
    rw [List.range_succ, List.foldl_append, List.foldl_append, ih]
    simp only [List.foldl_cons, List.foldl_nil]
    by_cases hin : i = n
    · subst hin
      have h1 : (l.set i v).getD i 0 = v := by
        simp [List.getD_eq_getElem?_getD, List.getElem?_set_self hi]
      simp only [h1, lt_irrefl, if_false, Nat.lt_succ_self, if_true]
      ring
    · have h1 : (l.set i v).getD n 0 = l.getD n 0 := by
        simp [List.getD_eq_getElem?_getD, List.getElem?_set_ne hin]
      have h2 : (i < n + 1) = (i < n) := by
        apply propext; constructor <;> intro h <;> omega
      simp only [h1, h2]
      ring

theorem ComputeChecksum_seqnum (p : pkt) (v : Int) :
    ComputeChecksum { p with seqnum := v } = ComputeChecksum p + (v - p.seqnum) := by
  unfold ComputeChecksum
  rw [← foldl_add_shift]
  congr 1
  show v + p.acknum = p.seqnum + p.acknum + (v - p.seqnum)
  ring

theorem ComputeChecksum_acknum (p : pkt) (v : Int) :
    ComputeChecksum { p with acknum := v } = ComputeChecksum p + (v - p.acknum) := by
  unfold ComputeChecksum
  rw [← foldl_add_shift]
  congr 1
  show p.seqnum + v = p.seqnum + p.acknum + (v - p.acknum)
  ring

theorem ComputeChecksum_payload (p : pkt) (i : Nat) (v : Int) (hi : i < 20)
    (hlen : i < p.payload.length) :
    ComputeChecksum { p with payload := p.payload.set i v } =
      ComputeChecksum p + (v - p.payload.getD i 0) := by
  unfold ComputeChecksum
  have := foldl_range_set p.payload i v hlen (p.seqnum + p.acknum) 20
  simp only [hi, if_true] at this
  exact this

/-- C13. For a packet whose checksum field is `ComputeChecksum` of it, a packet
that carries the same checksum field and differs in `seqnum` only, in `acknum`
only, or in one of the 20 payload bytes only, is reported by `IsCorrupted`. -/
theorem IsCorrupted_single_field (p : pkt) (h : p.checksum = ComputeChecksum p) :
    (∀ v : Int, v ≠ p.seqnum → IsCorrupted { p with seqnum := v } = true) ∧
    (∀ v : Int, v ≠ p.acknum → IsCorrupted { p with acknum := v } = true) ∧
    (∀ (i : Nat) (v : Int), i < 20 → i < p.payload.length → v ≠ p.payload.getD i 0 →
      IsCorrupted { p with payload := p.payload.set i v } = true) := by
  refine ⟨?_, ?_, ?_⟩
  · intro v hv
    have hne : p.checksum ≠ ComputeChecksum { p with seqnum := v } := by
      rw [ComputeChecksum_seqnum, h]; intro heq; apply hv; omega
    simp only [IsCorrupted]
    rw [if_neg hne]
  · intro v hv
    have hne : p.checksum ≠ ComputeChecksum { p with acknum := v } := by
      rw [ComputeChecksum_acknum, h]; intro heq; apply hv; omega
    simp only [IsCorrupted]
    rw [if_neg hne]
  · intro i v hi hlen hv
    have hne : p.checksum ≠ ComputeChecksum { p with payload := p.payload.set i v } := by
      rw [ComputeChecksum_payload p i v hi hlen, h]; intro heq; apply hv; omega
    simp only [IsCorrupted]
    rw [if_neg hne]

/-- The sums of C13 still differ after reduction modulo `2 ^ 32`, for fields in
the range of a 32-bit `int` and payload bytes in the range of a `char`: a
32-bit sum that wraps around detects the same changes. -/
theorem ComputeChecksum_single_field_mod (p : pkt) :
    (∀ v : Int, v ≠ p.seqnum → -2147483648 ≤ v → v < 2147483648 →
      -2147483648 ≤ p.seqnum → p.seqnum < 2147483648 →
      ComputeChecksum { p with seqnum := v } % 4294967296 ≠ ComputeChecksum p % 4294967296) ∧
    (∀ v : Int, v ≠ p.acknum → -2147483648 ≤ v → v < 2147483648 →
      -2147483648 ≤ p.acknum → p.acknum < 2147483648 →
      ComputeChecksum { p with acknum := v } % 4294967296 ≠ ComputeChecksum p % 4294967296) ∧
    (∀ (i : Nat) (v : Int), i < 20 → i < p.payload.length → v ≠ p.payload.getD i 0 →
      -128 ≤ v → v < 256 → -128 ≤ p.payload.getD i 0 → p.payload.getD i 0 < 256 →
      ComputeChecksum { p with payload := p.payload.set i v } % 4294967296 ≠
        ComputeChecksum p % 4294967296) := by
  refine ⟨?_, ?_, ?_⟩
  · intro v hv h1 h2 h3 h4
    rw [ComputeChecksum_seqnum]; omega
  · intro v hv h1 h2 h3 h4
    rw [ComputeChecksum_acknum]; omega
  · intro i v hi hlen hv h1 h2 h3 h4
    rw [ComputeChecksum_payload p i v hi hlen]; omega

/-- Witness for C13: packet 3 with each kind of change. -/
theorem IsCorrupted_single_field_witness :
    (exData 3 65).checksum = ComputeChecksum (exData 3 65) ∧
    IsCorrupted { exData 3 65 with seqnum := 999999 } = true ∧
    IsCorrupted { exData 3 65 with acknum := 999999 } = true ∧
    IsCorrupted { exData 3 65 with payload := (exData 3 65).payload.set 0 90 } = true :=
  ⟨by decide,
    (IsCorrupted_single_field (exData 3 65) (by decide)).1 999999 (by decide),
    (IsCorrupted_single_field (exData 3 65) (by decide)).2.1 999999 (by decide),
    (IsCorrupted_single_field (exData 3 65) (by decide)).2.2 0 90 (by decide) (by decide)
      (by decide)⟩

/-! ## Window test of the receiver -/

theorem B_inwindow_mod {base seq : Int} (hb0 : 0 ≤ base) (hb1 : base < 12) (hs0 : 0 ≤ seq)
    (hs1 : seq < 12) : B_inwindow base seq = true ↔ (seq - base) % 12 < 6 := by
  unfold B_inwindow
  simp only [WINDOWSIZE_eq, SEQSPACE_eq]
  by_cases hlow : base < 6
  · have h3 : (base + 6).tmod 12 = base + 6 := by
      rw [Int.tmod_eq_emod (by omega) (by decide)]; omega
    have h4 : base < base + 6 := by omega
    simp only [h3, h4, if_true]
    by_cases hin : seq ≥ base ∧ seq < base + 6
    · simp only [hin, and_self, if_true, true_iff]; omega
    · simp only [hin, if_false, Bool.false_eq_true, false_iff]; omega
  · have h3 : (base + 6).tmod 12 = base - 6 := by
      rw [Int.tmod_eq_emod (by omega) (by decide)]; omega
    have h4 : ¬ base < base - 6 := by omega
    simp only [h3, h4, if_false]
    by_cases hin : seq ≥ base ∨ seq < base - 6
    · simp only [hin, if_true, true_iff]; omega
    · simp only [hin, if_false, Bool.false_eq_true, false_iff]; omega

theorem rd_set_other {α : Type} (xs : List α) (i j : Int) (v : α) (h0 : 0 ≤ i) (hne : j ≠ i) :
    rd (xs.set i.toNat v) j = rd xs j := by
  by_cases hj : 0 ≤ j
  · exact rd_set_ne h0 hj (fun h => hne h.symm)
  · simp [rd, hj]

/-- The buffering statement of `B_input` is the test with the store into
`b_acked`, followed by the store into `b_window` when the test held. -/
theorem B_buffer_steps (s : Receiver) (packet : pkt) :
    B_buffer s packet =
      (B_mark s packet >>= fun r => if r.2 then B_store r.1 packet else pure r.1) := by
  unfold B_buffer B_mark B_store
  by_cases hin : B_inwindow s.b_windowbase packet.seqnum = true
  · simp only [hin, if_true]
    cases hc : rd s.b_acked packet.seqnum with
    | error e => rfl
    | ok c =>
      cases c with
      | true => rfl
      | false =>
        simp only [bind, Except.bind, Bool.not_false, if_true]
        cases hw : wr s.b_acked packet.seqnum true with
        | error e => rfl
        | ok acked => rfl
  · simp only [hin]
    rfl

/-- C17. For `b_windowbase` and a sequence number both in `[0, SEQSPACE)`, the
window test of `B_input` holds exactly when
`(seq - b_windowbase) mod SEQSPACE < WINDOWSIZE`, whether the window wraps or
not.  On every such pair the test `inwindow && !b_acked[seq]` with the statement
`b_acked[seq] = true` it guards (`B_mark`) returns: it sets `b_acked[seq]`, and
no other entry, exactly when the formula holds and `b_acked[seq]` was clear, and
changes nothing otherwise.  The buffering statement of `B_input` (`B_buffer`) is
this step followed, when the entry was set, by the store
`b_window[seq] = packet` (`B_store`); the last part gives its whole result. -/
theorem B_inwindow_iff_mod (base seq : Int) (hb0 : 0 ≤ base) (hb1 : base < SEQSPACE)
    (hs0 : 0 ≤ seq) (hs1 : seq < SEQSPACE) :
    (B_inwindow base seq = true ↔ (seq - base) % SEQSPACE < WINDOWSIZE) ∧
    ∀ (s : Receiver) (packet : pkt) (marked : Bool),
      s.b_windowbase = base → packet.seqnum = seq → rd s.b_acked seq = .ok marked →
      B_mark s packet =
        .ok (if (seq - base) % SEQSPACE < WINDOWSIZE ∧ marked = false then
            ({ s with b_acked := s.b_acked.set seq.toNat true }, true)
          else (s, false)) ∧
      rd (s.b_acked.set seq.toNat true) seq = .ok true ∧
      (∀ i : Int, i ≠ seq → rd (s.b_acked.set seq.toNat true) i = rd s.b_acked i) ∧
      B_buffer s packet =
        (B_mark s packet >>= fun r => if r.2 then B_store r.1 packet else pure r.1) ∧
      B_buffer s packet =
        if (seq - base) % SEQSPACE < WINDOWSIZE ∧ marked = false then
          (wr s.b_window seq packet).map
            (fun window => { s with b_acked := s.b_acked.set seq.toNat true,
                                    b_window := window })
        else .ok s := by
  rw [SEQSPACE_eq] at hb1 hs1
  have hiff := B_inwindow_mod hb0 hb1 hs0 hs1
  rw [SEQSPACE_eq, WINDOWSIZE_eq]
  refine ⟨hiff, ?_⟩
  intro s packet marked hbase hseq hmarked
  have hlen := (rd_lt hmarked).2
  refine ⟨?_, rd_set_same hs0 hlen, fun i hne => rd_set_other _ _ _ _ hs0 hne,
    B_buffer_steps s packet, ?_⟩
  · unfold B_mark
    rw [hbase, hseq]
    by_cases hin : (seq - base) % 12 < 6
    · have hw : B_inwindow base seq = true := hiff.2 hin
      cases marked with
      | false =>
        simp only [hw, if_true, hmarked, hin, and_self, bind, Except.bind, Bool.not_false,
          wr_ok.2 ⟨⟨hs0, hlen⟩, rfl⟩, pure, Except.pure]
      | true =>
        simp [hw, hmarked, hin, bind, Except.bind, pure, Except.pure]
    · have hw : ¬ B_inwindow base seq = true := fun h => hin (hiff.1 h)
      simp [hw, hin, pure, Except.pure]
  · unfold B_buffer
    rw [hbase, hseq]
    by_cases hin : (seq - base) % 12 < 6
    · have hw : B_inwindow base seq = true := hiff.2 hin
      cases marked with
      | false =>
        simp only [hw, if_true, hmarked, hin, and_self, bind, Except.bind, Bool.not_false,
          wr_ok.2 ⟨⟨hs0, hlen⟩, rfl⟩]
        cases wr s.b_window seq packet <;> rfl
      | true =>
        simp [hw, hmarked, hin, bind, Except.bind, pure, Except.pure]
    · have hw : ¬ B_inwindow base seq = true := fun h => hin (hiff.1 h)
      simp [hw, hin, pure, Except.pure]

/-- Witness for C17: base 8, whose window wraps to `[8, 12)` and `[0, 2)`, with
sequence number 1; and, after packets 0, 1 and 2, packet 7, which is inside the
window `[3, 9)`, not yet received and not a slot of `b_window`: `b_acked[7]` is
set. -/
theorem B_inwindow_iff_mod_witness :
    (B_inwindow 8 1 = true ↔ ((1 : Int) - 8) % SEQSPACE < WINDOWSIZE) ∧
    B_inwindow 8 1 = true ∧
    (B_after exThree).1.b_windowbase = 3 ∧ (exData 7 72).seqnum = 7 ∧
    rd (B_after exThree).1.b_acked 7 = .ok false ∧
    B_mark (B_after exThree).1 (exData 7 72) =
      .ok (if ((7 : Int) - 3) % SEQSPACE < WINDOWSIZE ∧ false = false then
          ({ (B_after exThree).1 with
              b_acked := (B_after exThree).1.b_acked.set (7 : Int).toNat true }, true)
        else ((B_after exThree).1, false)) ∧
    rd ((B_after exThree).1.b_acked.set (7 : Int).toNat true) 7 = .ok true :=
  ⟨(B_inwindow_iff_mod 8 1 (by decide) (by decide) (by decide) (by decide)).1,
    by decide, by rfl, by rfl, by rfl,
    ((B_inwindow_iff_mod 3 7 (by decide) (by decide) (by decide) (by decide)).2
      (B_after exThree).1 (exData 7 72) false (by rfl) (by rfl) (by rfl)).1,
    ((B_inwindow_iff_mod 3 7 (by decide) (by decide) (by decide) (by decide)).2
      (B_after exThree).1 (exData 7 72) false (by rfl) (by rfl) (by rfl)).2.1⟩

/-! ## Further runs of the code on which claims fail -/

theorem B_slide_nextseqnum (fuel : Nat) : ∀ (s : Receiver) (r : Receiver × List Action),
    B_slide fuel s = .ok r → r.1.B_nextseqnum = s.B_nextseqnum := by
  induction fuel with
  | zero => intro s r h; simp [B_slide] at h
  | succ n ih =>
    intro s r h
    simp only [B_slide, bind_ok] at h
    obtain ⟨c, -, h⟩ := h
    cases c with
    | true =>
      simp only [if_true, bind_ok, pure_ok] at h
      obtain ⟨buffered, -, acked, -, r1, hr1, hr⟩ := h
      rw [← hr]
      exact ih { s with b_acked := acked,
                        b_windowbase := (s.b_windowbase + 1).tmod SEQSPACE } r1 hr1
    | false =>
      simp only [Bool.false_eq_true, if_false, pure_ok] at h
      rw [← h]

theorem sent_deliveries (acts : List Action)
    (h : ∀ a ∈ acts, ∃ datasent, a = Action.tolayer5 .B datasent) (reply : pkt) :
    sent (acts ++ [Action.tolayer3 .B reply]) = [reply] := by
  induction acts with
  | nil => rfl
  | cons a rest ih =>
    obtain ⟨datasent, ha⟩ := h a (List.mem_cons_self a rest)
    subst ha
    exact ih (fun b hb => h b (List.mem_cons_of_mem _ hb))

/-- Every call of `B_input` on an uncorrupted packet that returns leaves
`B_nextseqnum` flipped twice, and its one reply carries the value after the
first flip. -/
theorem B_input_flips_twice {s s1 : Receiver} {packet sendpkt : pkt} {acts : List Action}
    (hc : IsCorrupted packet = false) (h : B_input s packet sendpkt = .ok (s1, acts)) :
    s1.B_nextseqnum = ((s.B_nextseqnum + 1).tmod 2 + 1).tmod 2 ∧
    (sent acts).map (fun p => p.seqnum) = [(s.B_nextseqnum + 1).tmod 2] := by
  unfold B_input at h
  simp only [hc, Bool.not_false, if_true, bind_ok, pure_ok, B_send, Prod.mk.injEq] at h
  obtain ⟨s2, hbuf, r, hslide, hs1, hacts⟩ := h
  have h2 : s2.B_nextseqnum = s.B_nextseqnum := by
    rcases B_buffer_spec hbuf with ⟨h2, -⟩ | ⟨-, -, -, -, h2⟩ <;> rw [h2]
  have h3 := B_slide_nextseqnum _ _ r hslide
  simp only at h3
  rw [← hs1, ← hacts, sent_deliveries _ (B_slide_actions _ _ r hslide)]
  simp only [h3, h2, List.map_cons, List.map_nil, and_self]

/-- C15. From `B_init`, where `B_nextseqnum` is 1, two uncorrupted packets
arrive.  Both replies carry `seqnum` 0, not the 1 that `B_nextseqnum` had on
entry, and `B_nextseqnum` is 1 again after each call: `B_input` sets the
sequence number of the reply and flips `B_nextseqnum` twice. -/
theorem B_input_replies_do_not_alternate :
    B_start.B_nextseqnum = 1 ∧
    IsCorrupted (exData 0 65) = false ∧ IsCorrupted (exData 1 66) = false ∧
    (B_run B_start [(exData 0 65, exJunk)]).toOption.map
        (fun r => ((sent r.2).map (fun p => p.seqnum), r.1.B_nextseqnum)) = some ([0], 1) ∧
    (B_run B_start [(exData 0 65, exJunk), (exData 1 66, exJunk)]).toOption.map
        (fun r => ((sent r.2).map (fun p => p.seqnum), r.1.B_nextseqnum)) =
      some ([0, 0], 1) := by
  refine ⟨by rfl, by rfl, by rfl, by rfl, by rfl⟩

/-- C16. After the events of `exWrap` the window holds sequence numbers 7 to 11
and 0: `seqfirst` is 7, `seqlast` is 0 and six packets are outstanding.  An
uncorrupted packet whose `acknum` is `NOTINUSE` passes the range test, since
`-1 <= seqlast`, and `A_input` reads `a_acked[-1]`. -/
theorem A_input_reads_before_a_acked :
    A_reachable (A_after exWrap) ∧
    (rd (A_after exWrap).st.a_window (A_after exWrap).st.a_windowfirst).toOption.map
        (fun p => p.seqnum) = some 7 ∧
    (rd (A_after exWrap).st.a_window (A_after exWrap).st.a_windowlast).toOption.map
        (fun p => p.seqnum) = some 0 ∧
    (A_after exWrap).st.unacked_packet_count = 6 ∧
    IsCorrupted (exAck (-1)) = false ∧ (exAck (-1)).acknum = NOTINUSE ∧
    A_inrange 7 0 (exAck (-1)).acknum = true ∧
    A_input (A_after exWrap).st (exAck (-1)) = .error .outOfBounds := by
  refine ⟨⟨exWrap, by rfl⟩, by rfl, by rfl, by rfl, by rfl, by rfl, by rfl, by rfl⟩

/-- C18. After the events of `exTimerLeft` the timer is armed and
`unacked_packet_count` is 0.  The next `A_output` raises the count to 1 and
calls `starttimer` while the timer is armed. -/
theorem A_output_starts_armed_timer :
    A_reachable (A_after exTimerLeft) ∧ (A_after exTimerLeft).timer = true ∧
    (A_after exTimerLeft).st.unacked_packet_count = 0 ∧
    (A_output (A_after exTimerLeft).st (exMsg 8)).toOption.map (fun r => r.2) =
      some [Action.tolayer3 .A (exData 8 8), Action.starttimer .A RTT] ∧
    (A_output (A_after exTimerLeft).st (exMsg 8)).toOption.map
        (fun r => startsArmed (A_after exTimerLeft).timer r.2) = some true := by
  refine ⟨⟨exTimerLeft, by rfl⟩, by rfl, by rfl, by rfl, by rfl⟩

/-- C19. After `A_init`, `A_nextseqnum` is 0, `a_windowfirst` is 0,
`a_windowlast` is -1, so that the first packet goes to slot 0, and
`unacked_packet_count` is 0; but every entry of `a_acked` is `true`: the loop
stores 3 into each `bool`. -/
theorem A_init_marks_all_acked :
    (A_init A_static).A_nextseqnum = 0 ∧ (A_init A_static).a_windowfirst = 0 ∧
    (A_init A_static).a_windowlast = -1 ∧
    ((A_init A_static).a_windowlast + 1).tmod WINDOWSIZE = 0 ∧
    (A_init A_static).unacked_packet_count = 0 ∧
    (A_init A_static).a_acked = List.replicate 12 true ∧
    rd (A_init A_static).a_acked 0 = .ok true := by
  refine ⟨by rfl, by rfl, by rfl, by rfl, by rfl, by rfl, by rfl⟩

/-- C20. After packets 0, 1 and 2 have been received `b_windowbase` is 3.  An
uncorrupted packet with sequence number 7 is inside the window `[3, 9)` and
not yet received: `B_input` sets `b_acked[7]`, an index of `b_acked`, and then
stores the packet at `b_window[7]`, which is not an index of the `WINDOWSIZE`
slots of `b_window`. -/
theorem B_input_index_past_b_window :
    B_reachable (B_after exThree).1 ∧ (B_after exThree).1.b_windowbase = 3 ∧
    (B_after exThree).1.b_window.length = 6 ∧
    IsCorrupted (exData 7 72) = false ∧
    (0 ≤ (exData 7 72).seqnum ∧ (exData 7 72).seqnum < SEQSPACE) ∧
    B_inwindow (B_after exThree).1.b_windowbase (exData 7 72).seqnum = true ∧
    rd (B_after exThree).1.b_acked (exData 7 72).seqnum = .ok false ∧
    ¬ (exData 7 72).seqnum < WINDOWSIZE ∧
    wr (B_after exThree).1.b_window (exData 7 72).seqnum (exData 7 72) =
      .error .outOfBounds ∧
    B_buffer (B_after exThree).1 (exData 7 72) = .error .outOfBounds ∧
    B_input (B_after exThree).1 (exData 7 72) exJunk = .error .outOfBounds := by
  refine ⟨⟨exThree, (B_after exThree).2, by rfl⟩, by rfl, by rfl, by rfl, by decide, by rfl,
    by rfl, by decide, by rfl, by rfl, by rfl⟩

/-! ## A packet that arrives twice -/

theorem B_slide_total (fuel : Nat) : ∀ (s : Receiver), s.b_window.length = 6 →
    s.b_acked.length = 12 → 0 ≤ s.b_windowbase → s.b_windowbase ≤ 6 →
    (∀ i : Int, 6 ≤ i → rd s.b_acked i ≠ .ok true) → s.b_acked.count true < fuel →
    ∃ r, B_slide fuel s = .ok r := by
  induction fuel with
  | zero => intro s _ _ _ _ _ h; omega
  | succ n ih =>
    intro s hwin hlen hb0 hb1 hhigh hcount
    have hlt : s.b_windowbase < (s.b_acked.length : Int) := by rw [hlen]; omega
    obtain ⟨c, hc⟩ := rd_bounds (l := s.b_acked) hb0 hlt
    cases c with
    | false => exact ⟨(s, []), B_slide_stay hc⟩
    | true =>
      have hb5 : s.b_windowbase < 6 := by
        by_contra hge
        exact hhigh s.b_windowbase (by omega) hc
      obtain ⟨buffered, hbuf⟩ := rd_bounds (l := s.b_window) hb0 (by rw [hwin]; omega)
      have hnext : (s.b_windowbase + 1).tmod SEQSPACE = s.b_windowbase + 1 := by
        rw [SEQSPACE_eq, Int.tmod_eq_emod (by omega) (by decide)]
        omega
      obtain ⟨r1, hr1⟩ := ih
        { s with b_acked := s.b_acked.set s.b_windowbase.toNat false,
                 b_windowbase := (s.b_windowbase + 1).tmod SEQSPACE }
        hwin
        (by show (s.b_acked.set s.b_windowbase.toNat false).length = 12
            rw [List.length_set]; exact hlen)
        (by show 0 ≤ (s.b_windowbase + 1).tmod SEQSPACE; rw [hnext]; omega)
        (by show (s.b_windowbase + 1).tmod SEQSPACE ≤ 6; rw [hnext]; omega)
        (by
          intro i hi
          show rd (s.b_acked.set s.b_windowbase.toNat false) i ≠ .ok true
          rw [rd_set_ne hb0 (by omega) (by omega)]
          exact hhigh i hi)
        (by
          show (s.b_acked.set s.b_windowbase.toNat false).count true < n
          have := count_true_set_false hc
          omega)
      refine ⟨(r1.1, Action.tolayer5 .B buffered.payload :: r1.2), ?_⟩
      simp only [B_slide, hc, if_true, hbuf, bind, Except.bind, wr_ok.2 ⟨⟨hb0, hlt⟩, rfl⟩, hr1,
        pure, Except.pure]

/-- In a state that satisfies the invariant of the receiver, `B_input` returns
for every uncorrupted packet whose sequence number is in `[0, SEQSPACE)`, unless
the packet is inside the window, not yet received and numbered `WINDOWSIZE` or
higher. -/
theorem B_input_total {s : Receiver} {packet : pkt} (sendpkt : pkt) (hi : B_inv s)
    (hc : IsCorrupted packet = false)
    (h0 : 0 ≤ packet.seqnum) (h1 : packet.seqnum < SEQSPACE)
    (hin : B_inwindow s.b_windowbase packet.seqnum = true →
      rd s.b_acked packet.seqnum = .ok false → packet.seqnum < WINDOWSIZE) :
    ∃ s1 acts, B_input s packet sendpkt = .ok (s1, acts) := by
  rw [SEQSPACE_eq] at h1
  rw [WINDOWSIZE_eq] at hin
  have hlt : packet.seqnum < (s.b_acked.length : Int) := by rw [hi.acked_len]; omega
  have hbuf : ∃ s2, B_buffer { s with packets_received := s.packets_received + 1 } packet =
      .ok s2 ∧ s2.b_window.length = 6 ∧ s2.b_acked.length = 12 ∧
      s2.b_windowbase = s.b_windowbase ∧ (∀ i : Int, 6 ≤ i → rd s2.b_acked i ≠ .ok true) := by
    unfold B_buffer
    by_cases hw : B_inwindow s.b_windowbase packet.seqnum = true
    · obtain ⟨c, hcr⟩ := rd_bounds (l := s.b_acked) h0 hlt
      cases c with
      | true =>
        refine ⟨{ s with packets_received := s.packets_received + 1 }, ?_, hi.window_len,
          hi.acked_len, rfl, hi.high_clear⟩
        simp [hw, hcr, bind, Except.bind, pure, Except.pure]
      | false =>
        have h6 := hin hw hcr
        refine ⟨{ s with packets_received := s.packets_received + 1,
                         b_acked := s.b_acked.set packet.seqnum.toNat true,
                         b_window := s.b_window.set packet.seqnum.toNat packet }, ?_, ?_, ?_,
          rfl, ?_⟩
        · simp only [hw, if_true, hcr, bind, Except.bind, Bool.not_false,
            wr_ok.2 ⟨⟨h0, hlt⟩, rfl⟩,
            wr_ok.2 ⟨⟨h0, (by rw [hi.window_len]; omega :
              packet.seqnum < (s.b_window.length : Int))⟩, rfl⟩, pure, Except.pure]
        · show (s.b_window.set packet.seqnum.toNat packet).length = 6
          rw [List.length_set]; exact hi.window_len
        · show (s.b_acked.set packet.seqnum.toNat true).length = 12
          rw [List.length_set]; exact hi.acked_len
        · intro i h6i
          show rd (s.b_acked.set packet.seqnum.toNat true) i ≠ .ok true
          rw [rd_set_ne h0 (by omega) (by omega)]
          exact hi.high_clear i h6i
    · refine ⟨{ s with packets_received := s.packets_received + 1 }, ?_, hi.window_len,
        hi.acked_len, rfl, hi.high_clear⟩
      simp [hw, pure, Except.pure]
  obtain ⟨s2, hs2, hwin, hlen, hbase, hhigh⟩ := hbuf
  obtain ⟨r, hr⟩ := B_slide_total (s2.b_acked.length + 1)
    { s2 with B_nextseqnum := (s2.B_nextseqnum + 1).tmod 2 } hwin hlen
    (by show 0 ≤ s2.b_windowbase; rw [hbase]; exact hi.base_lo)
    (by show s2.b_windowbase ≤ 6; rw [hbase]; exact hi.base_hi) hhigh
    (Nat.lt_succ_of_le (List.count_le_length _ _))
  have hres : B_input s packet sendpkt =
      .ok (B_send r.1
        { seqnum := s2.B_nextseqnum, acknum := packet.seqnum, checksum := sendpkt.checksum,
          payload := (List.range 20).map (fun _ => 48) } r.2) := by
    unfold B_input
    simp only [hc, Bool.not_false, if_true, hs2, hr, bind, Except.bind, pure, Except.pure]
  exact ⟨_, _, hres⟩

/-- The packets left out above are those on which `B_input` has no result: an
uncorrupted packet inside the window, not yet received and numbered
`WINDOWSIZE` or higher is stored outside `b_window`. -/
theorem B_input_store_outside {s : Receiver} {packet : pkt} (sendpkt : pkt)
    (hlen : s.b_window.length = 6) (hc : IsCorrupted packet = false)
    (hw : B_inwindow s.b_windowbase packet.seqnum = true)
    (hnew : rd s.b_acked packet.seqnum = .ok false) (h6 : WINDOWSIZE ≤ packet.seqnum) :
    B_input s packet sendpkt = .error .outOfBounds := by
  rw [WINDOWSIZE_eq] at h6
  have hb := rd_lt hnew
  have hst : wr s.b_window packet.seqnum packet = .error .outOfBounds := by
    unfold wr
    have : ¬ (0 ≤ packet.seqnum ∧ packet.seqnum.toNat < s.b_window.length) := by
      rw [hlen]; omega
    simp [this]
  have hbuf : B_buffer { s with packets_received := s.packets_received + 1 } packet =
      .error .outOfBounds := by
    unfold B_buffer
    simp only [hw, if_true, hnew, bind, Except.bind, Bool.not_false, wr_ok.2 ⟨hb, rfl⟩, hst]
  unfold B_input
  simp only [hc, Bool.not_false, if_true, hbuf, bind, Except.bind]

/-- After a call of `B_input` on an uncorrupted packet in a state that
satisfies the invariant of the receiver has returned, a second call on the same
packet changes only `packets_received` and sends one reply. -/
theorem B_input_second {s s1 : Receiver} {packet sendpkt : pkt} (sendpkt2 : pkt)
    {acts : List Action} (hi : B_inv s) (hc : IsCorrupted packet = false)
    (h : B_input s packet sendpkt = .ok (s1, acts)) :
    ∃ reply : pkt,
      B_input s1 packet sendpkt2 =
        .ok ({ s1 with packets_received := s1.packets_received + 1 },
          [Action.tolayer3 .B reply]) ∧
      reply.acknum = packet.seqnum ∧ IsCorrupted reply = false := by
  obtain ⟨hi1, hdup⟩ := B_input_first hi hc h
  refine ⟨_, B_input_again hi1 hc hdup, rfl, ?_⟩
  simp [IsCorrupted, ComputeChecksum]

/-- Where the packet is stored inside `b_window`, a packet that arrives twice is
ignored the second time.  For every receiver state reachable from `B_init` and
every uncorrupted packet whose sequence number is in `[0, SEQSPACE)`, unless the
packet is inside the window, not yet received and numbered `WINDOWSIZE` or
higher: `B_input` returns, and a second call on the same packet right after it
keeps `b_windowbase`, `b_acked`, `b_window` and `B_nextseqnum`, delivers nothing
to layer 5 and sends one uncorrupted packet whose `acknum` is the sequence
number of the packet; only the counter `packets_received` grows. -/
theorem B_input_twice_inside_b_window (s : Receiver) (packet sendpkt sendpkt2 : pkt)
    (hs : B_reachable s) (hc : IsCorrupted packet = false)
    (h0 : 0 ≤ packet.seqnum) (h1 : packet.seqnum < SEQSPACE)
    (hin : B_inwindow s.b_windowbase packet.seqnum = true →
      rd s.b_acked packet.seqnum = .ok false → packet.seqnum < WINDOWSIZE) :
    ∃ (s1 : Receiver) (acts : List Action) (reply : pkt),
      B_input s packet sendpkt = .ok (s1, acts) ∧
      B_input s1 packet sendpkt2 =
        .ok ({ s1 with packets_received := s1.packets_received + 1 },
          [Action.tolayer3 .B reply]) ∧
      reply.acknum = packet.seqnum ∧ IsCorrupted reply = false := by
  obtain ⟨s1, acts, h⟩ := B_input_total sendpkt (B_reachable_inv hs) hc h0 h1 hin
  obtain ⟨reply, h2, h3, h4⟩ := B_input_second sendpkt2 (B_reachable_inv hs) hc h
  exact ⟨s1, acts, reply, h, h2, h3, h4⟩

/-- C7. After packets 0 to 3 `b_windowbase` is 4.  The uncorrupted packet
`exOdd`, sequence number 6, is inside the window `[4, 10)` and not yet
received; `B_input` stores it at `b_window[6]`, outside the array, so the two
calls in a row have no result.  In a build that goes on and has `b_acked` right
behind `b_window` (`exOverlay`), the store puts the header of the packet over
`b_acked`: the first call finds `b_acked[4]` set, hands the content of
`b_window[4]` to layer 5 and ends with `b_windowbase` 5 and `b_acked[4]` and
`b_acked[6]` clear; the second call stores the packet again, which sets
`b_acked[4]` again: it does not leave `b_acked` unchanged.  The packet that
`A_output` builds for sequence number 6 from a message of twenty bytes -1 does
the same: the first call hands nine payloads to layer 5 and ends with
`b_windowbase` 1 and `b_acked` all clear, the second call sets nine entries of
`b_acked`. -/
theorem B_input_twice_past_b_window :
    B_reachable (B_after exFour).1 ∧ (B_after exFour).1.b_windowbase = 4 ∧
    (IsCorrupted exOdd = false ∧ 0 ≤ exOdd.seqnum ∧ exOdd.seqnum < SEQSPACE) ∧
    B_input (B_after exFour).1 exOdd exJunk = .error .outOfBounds ∧
    (B_input_beyond exOverlay (B_after exFour).1 exOdd exJunk).toOption.map
        (fun r => (r.1.b_windowbase, r.1.b_acked, (delivered r.2).length)) =
      some (5, [true, false, false, false, false, false, false, false, true, true, false,
        false], 1) ∧
    (B_input_beyond exOverlay (B_after exFour).1 exOdd exJunk).toOption.bind
        (fun r => (B_input_beyond exOverlay r.1 exOdd exJunk).toOption.map
          (fun r2 => (r2.1.b_windowbase, r2.1.b_acked, (delivered r2.2).length))) =
      some (5, [true, false, false, false, true, false, false, false, true, true, false,
        false], 0) ∧
    (IsCorrupted (exData 6 (-1)) = false ∧ (exData 6 (-1)).seqnum = 6) ∧
    B_input (B_after exFour).1 (exData 6 (-1)) exJunk = .error .outOfBounds ∧
    (B_input_beyond exOverlay (B_after exFour).1 (exData 6 (-1)) exJunk).toOption.map
        (fun r => (r.1.b_windowbase, r.1.b_acked, (delivered r.2).length)) =
      some (1, List.replicate 12 false, 9) ∧
    (B_input_beyond exOverlay (B_after exFour).1 (exData 6 (-1)) exJunk).toOption.bind
        (fun r => (B_input_beyond exOverlay r.1 (exData 6 (-1)) exJunk).toOption.map
          (fun r2 => (r2.1.b_windowbase, r2.1.b_acked, (delivered r2.2).length))) =
      some (1, [true, false, false, false, true, true, true, true, true, true, true, true],
        0) := by
  refine ⟨⟨exFour, (B_after exFour).2, by rfl⟩, by rfl, ⟨by rfl, by decide, by decide⟩,
    by rfl, by rfl, by rfl, ⟨by rfl, by rfl⟩, by rfl, by rfl, by rfl⟩

/-- With the memory `exOverlay`, the seventh packet of a run in order, sequence
number 6 after packets 0 to 5, is followed by four deliveries: `b_windowbase`
moves from 6 to 10 over entries of `b_acked` that the header of the packet has
set, and the payloads of three packets that never arrived are handed to
layer 5. -/
theorem B_input_beyond_seventh :
    (B_input_beyond exOverlay (B_after exInOrder).1 (exData 6 71) exJunk).toOption.map
        (fun r => (r.1.b_windowbase, (delivered r.2).length, (sent r.2).length)) =
      some (10, 4, 1) := by
  rfl

/-- After packets 0 and 1, packet 4 arrives twice; it is inside the window and
not yet received when it first arrives. -/
theorem B_input_twice_inside_b_window_sample :
    B_reachable (B_after exTwo).1 ∧ IsCorrupted (exData 4 69) = false ∧
    B_inwindow (B_after exTwo).1.b_windowbase (exData 4 69).seqnum = true ∧
    rd (B_after exTwo).1.b_acked (exData 4 69).seqnum = .ok false ∧
    ∃ (s1 : Receiver) (acts : List Action) (reply : pkt),
      B_input (B_after exTwo).1 (exData 4 69) exJunk = .ok (s1, acts) ∧
      B_input s1 (exData 4 69) exJunk =
        .ok ({ s1 with packets_received := s1.packets_received + 1 },
          [Action.tolayer3 .B reply]) ∧
      reply.acknum = (exData 4 69).seqnum ∧ IsCorrupted reply = false :=
  ⟨⟨exTwo, (B_after exTwo).2, by rfl⟩, by rfl, by rfl, by rfl,
    B_input_twice_inside_b_window (B_after exTwo).1 (exData 4 69) exJunk exJunk
      ⟨exTwo, (B_after exTwo).2, by rfl⟩ (by rfl) (by decide) (by decide)
      (fun _ _ => by decide)⟩

/-! ## The reply of the receiver, also past the slots of `b_window` -/

theorem B_window_put_shape {m : Beyond} (hm : ∀ s i q, B_shape s → B_shape (m.stored s i q))
    {s : Receiver} (hs : B_shape s) (i : Int) (packet : pkt) :
    B_shape (B_window_put m s i packet) := by
  unfold B_window_put
  cases hw : wr s.b_window i packet with
  | error e => exact hm s i packet hs
  | ok window =>
    obtain ⟨h1, h2, h3, h4⟩ := hs
    refine ⟨?_, h2, h3, h4⟩
    show window.length = 6
    rw [(wr_ok.1 hw).2, List.length_set]; exact h1

theorem B_buffer_beyond_total {m : Beyond}
    (hm : ∀ s i q, B_shape s → B_shape (m.stored s i q))
    {s : Receiver} (hs : B_shape s) (packet : pkt)
    (h0 : 0 ≤ packet.seqnum) (h1 : packet.seqnum < SEQSPACE) :
    ∃ s2, B_buffer_beyond m s packet = .ok s2 ∧ B_shape s2 := by
  rw [SEQSPACE_eq] at h1
  unfold B_buffer_beyond
  by_cases hin : B_inwindow s.b_windowbase packet.seqnum = true
  · have hlt : packet.seqnum < (s.b_acked.length : Int) := by rw [hs.2.1]; omega
    obtain ⟨c, hc⟩ := rd_bounds (l := s.b_acked) h0 (by rw [hs.2.1]; omega)
    cases c with
    | true =>
      refine ⟨s, ?_, hs⟩
      simp [hin, hc, bind, Except.bind, pure, Except.pure]
    | false =>
      refine ⟨B_window_put m { s with b_acked := s.b_acked.set packet.seqnum.toNat true }
        packet.seqnum packet, ?_, ?_⟩
      · simp only [hin, if_true, hc, bind, Except.bind, Bool.not_false,
          wr_ok.2 ⟨⟨h0, hlt⟩, rfl⟩, pure, Except.pure]
      · apply B_window_put_shape hm
        refine ⟨hs.1, ?_, hs.2.2.1, hs.2.2.2⟩
        show (s.b_acked.set packet.seqnum.toNat true).length = 12
        rw [List.length_set]; exact hs.2.1
  · refine ⟨s, ?_, hs⟩
    simp [hin, pure, Except.pure]

theorem B_slide_beyond_total (m : Beyond) (fuel : Nat) : ∀ (s : Receiver), B_shape s →
    s.b_acked.count true < fuel →
    ∃ r, B_slide_beyond m fuel s = .ok r ∧
      ∀ a ∈ r.2, ∃ datasent, a = Action.tolayer5 .B datasent := by
  induction fuel with
  | zero => intro s _ h; omega
  | succ n ih =>
    intro s hs hcount
    have hb0 := hs.2.2.1
    have hb1 := hs.2.2.2
    rw [SEQSPACE_eq] at hb1
    have hlt : s.b_windowbase < (s.b_acked.length : Int) := by rw [hs.2.1]; omega
    obtain ⟨c, hc⟩ := rd_bounds (l := s.b_acked) hb0 (by rw [hs.2.1]; omega)
    cases c with
    | false =>
      refine ⟨(s, []), ?_, fun a ha => absurd ha (List.not_mem_nil a)⟩
      simp [B_slide_beyond, hc, bind, Except.bind, pure, Except.pure]
    | true =>
      have hnext := tmod_range (x := s.b_windowbase + 1) (n := SEQSPACE) (by omega) (by decide)
      obtain ⟨r1, hr1, hacts⟩ := ih
        { s with b_acked := s.b_acked.set s.b_windowbase.toNat false,
                 b_windowbase := (s.b_windowbase + 1).tmod SEQSPACE }
        ⟨hs.1, (by
          show (s.b_acked.set s.b_windowbase.toNat false).length = 12
          rw [List.length_set]; exact hs.2.1), hnext.1, hnext.2⟩
        (by
          show (s.b_acked.set s.b_windowbase.toNat false).count true < n
          have := count_true_set_false hc
          omega)
      refine ⟨(r1.1, Action.tolayer5 .B (B_window_get m s s.b_windowbase).payload :: r1.2),
        ?_, ?_⟩
      · simp only [B_slide_beyond, hc, if_true, bind, Except.bind,
          wr_ok.2 ⟨⟨hb0, hlt⟩, rfl⟩, hr1, pure, Except.pure]
      · intro a ha
        rcases List.mem_cons.1 ha with ha | ha
        · exact ⟨_, ha⟩
        · exact hacts a ha

theorem B_buffer_beyond_agrees (m : Beyond) {s s2 : Receiver} {packet : pkt}
    (h : B_buffer s packet = .ok s2) : B_buffer_beyond m s packet = .ok s2 := by
  unfold B_buffer at h
  unfold B_buffer_beyond
  split at h
  · rename_i hin
    simp only [bind_ok] at h
    obtain ⟨c, hc, h⟩ := h
    cases c with
    | false =>
      simp only [Bool.not_false, if_true, bind_ok, pure_ok] at h
      obtain ⟨acked, ha, window, hw, hs⟩ := h
      have hput : B_window_put m { s with b_acked := acked } packet.seqnum packet = s2 := by
        unfold B_window_put
        simp only [hw]
        exact hs
      simp only [hin, if_true, hc, ha, bind, Except.bind, Bool.not_false, pure, Except.pure, hput]
    | true =>
      simp only [Bool.not_true, Bool.false_eq_true, if_false, pure_ok] at h
      subst h
      simp [hin, hc, bind, Except.bind, pure, Except.pure]
  · rename_i hin
    simp only [pure_ok] at h
    subst h
    simp [hin, pure, Except.pure]

theorem B_slide_beyond_agrees (m : Beyond) (fuel : Nat) :
    ∀ (s : Receiver) (r : Receiver × List Action),
    B_slide fuel s = .ok r → B_slide_beyond m fuel s = .ok r := by
  induction fuel with
  | zero => intro s r h; simp [B_slide] at h
  | succ n ih =>
    intro s r h
    simp only [B_slide, bind_ok] at h
    obtain ⟨c, hc, h⟩ := h
    cases c with
    | true =>
      simp only [if_true, bind_ok, pure_ok] at h
      obtain ⟨buffered, hbuf, acked, hw, r1, hr1, hr⟩ := h
      have hget : B_window_get m s s.b_windowbase = buffered := by
        unfold B_window_get
        simp only [hbuf]
      simp only [B_slide_beyond, hc, if_true, bind, Except.bind, hw, hget, ih _ r1 hr1, pure,
        Except.pure]
      rw [← hr]
    | false =>
      simp only [Bool.false_eq_true, if_false, pure_ok] at h
      simp [B_slide_beyond, hc, bind, Except.bind, pure, Except.pure, h]

theorem B_input_beyond_agrees (m : Beyond) {s : Receiver} {packet sendpkt : pkt}
    {r : Receiver × List Action} (h : B_input s packet sendpkt = .ok r) :
    B_input_beyond m s packet sendpkt = .ok r := by
  unfold B_input at h
  unfold B_input_beyond
  cases hc : IsCorrupted packet with
  | true =>
    simp only [hc, Bool.not_true, Bool.false_eq_true, if_false] at h ⊢
    exact h
  | false =>
    simp only [hc, Bool.not_false, if_true, bind_ok, pure_ok] at h
    obtain ⟨s2, hbuf, r1, hslide, hr⟩ := h
    simp only [Bool.not_false, if_true, B_buffer_beyond_agrees m hbuf,
      B_slide_beyond_agrees m _ _ r1 hslide, bind, Except.bind, pure, Except.pure, hr]

theorem exOverlay_shape (s : Receiver) (i : Int) (q : pkt) (hs : B_shape s) :
    B_shape (exOverlay.stored s i q) := by
  unfold exOverlay
  simp only
  split
  · exact ⟨hs.1, by simp, hs.2.2.1, hs.2.2.2⟩
  · exact hs

end SR
